import Mathlib

/-
Verification of the cheriplot provenance-graph builder
(src/cheriplot/provenance/parser.py) against its specification.

The data model (CheriCap, NodeData, CheriNodeOrigin, event logs) lives in
cheriplot/provenance/model.py, which is not part of the staged sources;
those definitions are modelled from the specification's data-model section
and are marked as such.  Everything else is a direct shallow embedding of
the Python code in parser.py: graphs are vertex-data lists plus edge lists,
vertex handles are indices, dictionaries are association lists, and Python
exceptions become an explicit error type threaded through `Except`.
-/

namespace Cheriplot

/-- Modelled from the spec: the immutable capability descriptor
`{base, length, offset, permissions, object_type, valid, t_alloc}`
(class CheriCap of cheriplot/provenance/model.py, not in src). -/
structure CheriCap where
  base : Nat
  length : Nat
  offset : Nat
  permissions : Nat
  objtype : Nat
  valid : Bool
  t_alloc : Nat
  deriving DecidableEq, Repr

/-- Modelled from the spec: a default (all-zero, untagged) capability used
for placeholder vertex data. -/
def CheriCap.null : CheriCap :=
  { base := 0, length := 0, offset := 0, permissions := 0,
    objtype := 0, valid := false, t_alloc := 0 }

/-- Modelled from the spec: the EXEC permission bit of CheriCapPerm
(model.py, not in src); the concrete bit value is immaterial. -/
def CheriCapPermEXEC : Nat := 8

/-- Modelled from the spec: CheriCap.has_perm — test a permission bit. -/
def CheriCap.has_perm (c : CheriCap) (p : Nat) : Bool :=
  c.permissions &&& p == p

/-- Modelled from the spec: the vertex-origin tagged enum
(CheriNodeOrigin in model.py, not in src). -/
inductive CheriNodeOrigin where
  | ROOT
  | SETBOUNDS
  | FROMPTR
  | ANDPERM
  | PTR_SETBOUNDS
  | PARTIAL
  deriving DecidableEq, Repr

/-- Modelled from the spec: the kinds of entries of a vertex event log. -/
inductive EventKind where
  | derefLoad
  | derefStore
  | memLoad
  | memStore
  | syscallArg
  | syscallRet
  deriving DecidableEq, Repr

/-- Modelled from the spec: one entry of a vertex event log
`{cycle, kind, address, syscall_code}`. -/
structure NodeEvent where
  cycle : Nat
  kind : EventKind
  addr : Nat
  code : Nat
  deriving DecidableEq, Repr

/-- Modelled from the spec: per-vertex record
`{cap, origin, pc_created, is_kernel, events}` (NodeData in model.py). -/
structure NodeData where
  cap : CheriCap
  origin : CheriNodeOrigin
  pc : Nat
  is_kernel : Bool
  events : List NodeEvent
  deriving DecidableEq, Repr

/-- Modelled from the spec: NodeData.add_mem_load — append a `mem_load`
event to the vertex event log. -/
def NodeData.add_mem_load (d : NodeData) (cycle addr : Nat) : NodeData :=
  { d with events := d.events ++ [⟨cycle, EventKind.memLoad, addr, 0⟩] }

/-- Modelled from the spec: NodeData.add_mem_store — append a `mem_store`
event to the vertex event log. -/
def NodeData.add_mem_store (d : NodeData) (cycle addr : Nat) : NodeData :=
  { d with events := d.events ++ [⟨cycle, EventKind.memStore, addr, 0⟩] }

/-- Modelled from the spec: NodeData.add_deref_load. -/
def NodeData.add_deref_load (d : NodeData) (cycle addr : Nat) : NodeData :=
  { d with events := d.events ++ [⟨cycle, EventKind.derefLoad, addr, 0⟩] }

/-- Modelled from the spec: NodeData.add_deref_store. -/
def NodeData.add_deref_store (d : NodeData) (cycle addr : Nat) : NodeData :=
  { d with events := d.events ++ [⟨cycle, EventKind.derefStore, addr, 0⟩] }

/-- Modelled from the spec: NodeData.add_use_syscall — append a
`syscall_arg` (is_arg = true) or `syscall_ret` event. -/
def NodeData.add_use_syscall (d : NodeData) (cycle code : Nat)
    (is_arg : Bool) : NodeData :=
  { d with events := d.events ++
      [⟨cycle, if is_arg then EventKind.syscallArg else EventKind.syscallRet,
        0, code⟩] }

/-- Data returned for a vertex handle that is out of range; only used to
totalize lookups, real accesses stay in range. -/
def NodeData.null : NodeData :=
  { cap := CheriCap.null, origin := CheriNodeOrigin.ROOT, pc := 0,
    is_kernel := false, events := [] }

/-- Directed provenance graph: vertex `i` carries `vdata[i]`; edges are
parent → child pairs of vertex indices (the graph-tool Graph used by
ProvenanceGraphManager, restricted to what the parser uses). -/
structure PGraph where
  vdata : List NodeData
  edges : List (Nat × Nat)
  deriving DecidableEq, Repr

/-- Number of vertices. -/
def PGraph.size (g : PGraph) : Nat := g.vdata.length

/-- Vertex data lookup (`pgm.data[v]`). -/
def PGraph.data (g : PGraph) (v : Nat) : NodeData :=
  g.vdata.getD v NodeData.null

/-- Graph.add_vertex: append a vertex, returning the graph and the new
vertex handle. -/
def PGraph.add_vertex (g : PGraph) (d : NodeData) : PGraph × Nat :=
  ({ g with vdata := g.vdata ++ [d] }, g.vdata.length)

/-- Graph.add_edge. -/
def PGraph.add_edge (g : PGraph) (u v : Nat) : PGraph :=
  { g with edges := g.edges ++ [(u, v)] }

/-- Replace the data attached to vertex `v` (`pgm.data[v] = d`). -/
def PGraph.setData (g : PGraph) (v : Nat) (d : NodeData) : PGraph :=
  { g with vdata := g.vdata.set v d }

/-- Vertex.out_neighbours. -/
def PGraph.out_neighbours (g : PGraph) (v : Nat) : List Nat :=
  (g.edges.filter (fun e => e.1 == v)).map (fun e => e.2)

/-- Vertex.in_neighbours. -/
def PGraph.in_neighbours (g : PGraph) (v : Nat) : List Nat :=
  (g.edges.filter (fun e => e.2 == v)).map (fun e => e.1)

/-- Vertex.out_degree. -/
def PGraph.out_degree (g : PGraph) (v : Nat) : Nat :=
  (g.out_neighbours v).length

/-- The empty graph. -/
def PGraph.empty : PGraph := { vdata := [], edges := [] }

/-- RegisterSet: the vertex handle held by each of the 32 capability
registers plus pcc (class RegisterSet of parser.py). -/
structure RegisterSet where
  reg_nodes : List (Option Nat)
  pcc : Option Nat
  deriving DecidableEq, Repr

/-- RegisterSet._attach_subgraph_merge: when a ROOT vertex that is not yet
attached to any PARTIAL dummy is assigned over a slot currently holding a
PARTIAL dummy, add the edge dummy → root. -/
def attach_subgraph_merge (g : PGraph) (regset_vertex input_vertex : Option Nat) :
    PGraph :=
  match input_vertex, regset_vertex with
  | some iv, some rv =>
    if (g.data iv).origin = CheriNodeOrigin.ROOT then
      if (g.in_neighbours iv).any
          (fun n => (g.data n).origin == CheriNodeOrigin.PARTIAL) then g
      else if (g.data rv).origin = CheriNodeOrigin.PARTIAL then
        g.add_edge rv iv
      else g
    else g
  | _, _ => g

/-- RegisterSet.__setitem__: run the subgraph-merge attachment against the
current slot content, then store the new handle. -/
def set_reg (g : PGraph) (rs : RegisterSet) (idx : Nat) (val : Option Nat) :
    PGraph × RegisterSet :=
  (attach_subgraph_merge g (rs.reg_nodes.getD idx none) val,
   { rs with reg_nodes := rs.reg_nodes.set idx val })

/-- RegisterSet.pcc setter. -/
def set_pcc (g : PGraph) (rs : RegisterSet) (val : Option Nat) :
    PGraph × RegisterSet :=
  (attach_subgraph_merge g rs.pcc val, { rs with pcc := val })

/-- RegisterSet.has_reg: false when the slot is empty; when `allow_root` is
set, additionally false when the held vertex has origin PARTIAL. -/
def has_reg (g : PGraph) (rs : RegisterSet) (idx : Nat) (allow_root : Bool) :
    Bool :=
  match rs.reg_nodes.getD idx none with
  | none => false
  | some v =>
    if allow_root then
      if (g.data v).origin == CheriNodeOrigin.PARTIAL then false else true
    else true

/-- RegisterSet.has_pcc: same check for the pcc slot. -/
def has_pcc (g : PGraph) (rs : RegisterSet) (allow_root : Bool) : Bool :=
  match rs.pcc with
  | none => false
  | some v =>
    if allow_root then
      if (g.data v).origin == CheriNodeOrigin.PARTIAL then false else true
    else true

/-- VertexMemoryMap: the graph vertex associated with each memory address
(class VertexMemoryMap of parser.py), as an association list with the
most recent binding first. -/
structure VertexMemoryMap where
  vertex_map : List (Nat × Nat)
  deriving DecidableEq, Repr

/-- Dictionary lookup `vertex_map[addr]` (None on a missing key). -/
def VertexMemoryMap.get (m : VertexMemoryMap) (addr : Nat) : Option Nat :=
  (m.vertex_map.find? (fun p => p.1 == addr)).map (fun p => p.2)

/-- VertexMemoryMap.mem_store: record the vertex for the address. -/
def VertexMemoryMap.mem_store (m : VertexMemoryMap) (addr v : Nat) :
    VertexMemoryMap :=
  { vertex_map := (addr, v) :: m.vertex_map.filter (fun p => p.1 != addr) }

/-- VertexMemoryMap.clear: unregister the vertex for the address. -/
def VertexMemoryMap.clear (m : VertexMemoryMap) (addr : Nat) :
    VertexMemoryMap :=
  { vertex_map := m.vertex_map.filter (fun p => p.1 != addr) }

/-- VertexMemoryMap.mem_load: when a vertex is given, store it first; then
return the vertex at the address, if any. -/
def VertexMemoryMap.mem_load (m : VertexMemoryMap) (addr : Nat)
    (v : Option Nat) : VertexMemoryMap × Option Nat :=
  match v with
  | some vv =>
    let m2 := m.mem_store addr vv
    (m2, m2.get addr)
  | none => (m, m.get addr)

/-- The fatal error conditions surfaced by the builder.  The first four are
the exception classes declared at the top of parser.py; `notImplemented` is
Python's NotImplementedError as raised by the unsupported-opcode handlers;
`fault` stands for any other unhandled Python runtime error (attribute or
index errors on impossible states). -/
inductive BuilderError where
  | missingParent
  | dereferenceUnknown
  | subgraphMerge
  | unexpectedOperation
  | notImplemented
  | fault
  deriving DecidableEq, Repr

/-- State a worker's instruction handlers operate on: the provenance graph,
the register set and the vertex-memory map. -/
structure ParserState where
  pgm : PGraph
  regset : RegisterSet
  vertex_map : VertexMemoryMap
  deriving DecidableEq, Repr

/-- PointerProvenanceParser.make_root_node: create a ROOT vertex from a
capability value observed in the trace. -/
def make_root_node (g : PGraph) (cap : CheriCap) (cycle pc : Nat)
    (is_kernel : Bool) : PGraph × Nat :=
  g.add_vertex
    { cap := { cap with t_alloc := cycle }, origin := CheriNodeOrigin.ROOT,
      pc := pc, is_kernel := is_kernel, events := [] }

/-- PointerProvenanceParser.make_node: create a derived vertex whose parent
is the register-set entry of the source operand; the new vertex data comes
from the destination operand of the trace record. -/
def make_node (g : PGraph) (rs : RegisterSet) (src_idx : Nat) (d : NodeData) :
    Except BuilderError (PGraph × Nat) :=
  if has_reg g rs src_idx false then
    match rs.reg_nodes.getD src_idx none with
    | none => Except.error BuilderError.missingParent
    | some parent =>
      let (g1, vertex) := g.add_vertex d
      Except.ok (g1.add_edge parent vertex, vertex)
  else Except.error BuilderError.missingParent

/-- Fields of a clc trace record used by the handler: destination register
index, post-instruction destination value, effective address, cycle count,
exception code (31 means no exception) and the destination capability
before and after the instruction. -/
structure ClcRecord where
  cd : Nat
  value : CheriCap
  memory_address : Nat
  cycles : Nat
  exception : Nat
  old_cd : CheriCap
  curr_cd : CheriCap
  pc : Nat
  is_kernel : Bool
  deriving DecidableEq, Repr

/-- PointerProvenanceParser._has_exception (no explicit code): exception
code 31 marks an entry without exception. -/
def has_exception (exception : Nat) : Bool := exception != 31

/-- PointerProvenanceParser.scan_clc: look up the memory-vertex map at the
effective address; an invalid loaded capability clears the destination
register and the map entry; a valid one that committed installs the mapped
vertex (or a fresh ROOT) in the destination register and logs `mem_load`. -/
def scan_clc (s : ParserState) (e : ClcRecord) : ParserState :=
  let node := (s.vertex_map.mem_load e.memory_address none).2
  if e.value.valid = false then
    let (g, rs) := set_reg s.pgm s.regset e.cd none
    let vm := match node with
      | some _ => s.vertex_map.clear e.memory_address
      | none => s.vertex_map
    { pgm := g, regset := rs, vertex_map := vm }
  else
    if e.old_cd = e.curr_cd ∧ has_exception e.exception then
      -- the destination register kept its value under an exception:
      -- the load did not commit
      s
    else
      match node with
      | none =>
        let (g1, n) := make_root_node s.pgm e.value e.cycles e.pc e.is_kernel
        let (vm1, _) := s.vertex_map.mem_load e.memory_address (some n)
        let g2 := g1.setData n ((g1.data n).add_mem_load e.cycles e.memory_address)
        let (g3, rs) := set_reg g2 s.regset e.cd (some n)
        { pgm := g3, regset := rs, vertex_map := vm1 }
      | some n =>
        let g2 := s.pgm.setData n ((s.pgm.data n).add_mem_load e.cycles e.memory_address)
        let (g3, rs) := set_reg g2 s.regset e.cd (some n)
        { pgm := g3, regset := rs, vertex_map := s.vertex_map }

/-- Fields of a csc trace record used by the handler. -/
structure CscRecord where
  cd : Nat
  value : CheriCap
  memory_address : Nat
  cycles : Nat
  pc : Nat
  is_kernel : Bool
  deriving DecidableEq, Repr

/-- PointerProvenanceParser.scan_csc: when the stored capability is valid,
record its vertex (synthesizing a ROOT for a previously unseen register) in
the memory-vertex map at the effective address and log `mem_store`; an
invalid stored capability changes nothing. -/
def scan_csc (s : ParserState) (e : CscRecord) : ParserState :=
  if e.value.valid then
    let step :=
      if has_reg s.pgm s.regset e.cd true = false then
        let (g1, n) := make_root_node s.pgm e.value e.cycles e.pc e.is_kernel
        let (g2, rs2) := set_reg g1 s.regset e.cd (some n)
        (g2, rs2, n)
      else
        (s.pgm, s.regset, (s.regset.reg_nodes.getD e.cd none).getD 0)
    let g := step.1
    let rs := step.2.1
    let n := step.2.2
    let vm := s.vertex_map.mem_store e.memory_address n
    let g2 := g.setData n ((g.data n).add_mem_store e.cycles e.memory_address)
    { pgm := g2, regset := rs, vertex_map := vm }
  else s

/-- PointerProvenanceParser.scan_cclearregs: raises NotImplementedError
unconditionally. -/
def scan_cclearregs (_s : ParserState) : Except BuilderError ParserState :=
  Except.error BuilderError.notImplemented

/-- State of the CapabilityBranchSubparser: the pcc vertex and the address
saved at a capability branch that took an exception, the first-mfc flag and
the boundary values captured for the merge step. -/
structure BranchState where
  saved_pcc : Option Nat
  saved_addr : Option Nat
  save_first_mfc : Bool
  initial_epcc : Option Nat
  initial_badvaddr : Option Nat
  saved_epcc_out_neighbours : Option (List Nat)
  deriving DecidableEq, Repr

/-- CapabilityBranchSubparser initial state. -/
def BranchState.init : BranchState :=
  { saved_pcc := none, saved_addr := none, save_first_mfc := true,
    initial_epcc := none, initial_badvaddr := none,
    saved_epcc_out_neighbours := none }

/-- CapabilityBranchSubparser._save_branch_state: snapshot the pcc vertex,
the branch pc and the current out-neighbours of the branch target. -/
def save_branch_state (g : PGraph) (rs : RegisterSet) (b : BranchState)
    (pc : Nat) (branch_target : Nat) : BranchState :=
  { b with
    save_first_mfc := false,
    saved_pcc := rs.pcc,
    saved_addr := some pc,
    saved_epcc_out_neighbours := some (g.out_neighbours branch_target) }

/-- CapabilityBranchSubparser.scan_cjr: replace pcc with the vertex of the
branch-target register, saving the branch state first when the instruction
took an exception; a target without vertex or a new pcc without EXEC
permission is an UnexpectedOperationError. -/
def scan_cjr (g : PGraph) (rs : RegisterSet) (b : BranchState)
    (op0_cap_index pc : Nat) (has_exc : Bool) :
    Except BuilderError (PGraph × RegisterSet × BranchState) :=
  if has_reg g rs op0_cap_index false then
    match rs.reg_nodes.getD op0_cap_index none with
    | none => Except.error BuilderError.fault
    | some new_pcc =>
      let b1 := if has_exc then save_branch_state g rs b pc new_pcc else b
      let (g1, rs1) := set_pcc g rs (some new_pcc)
      if (g1.data new_pcc).cap.has_perm CheriCapPermEXEC then
        Except.ok (g1, rs1, b1)
      else Except.error BuilderError.unexpectedOperation
  else Except.error BuilderError.unexpectedOperation

/-- CapabilityBranchSubparser.scan_cjalr: save the old pcc vertex (or a
fresh ROOT) into the link register, then branch exactly as scan_cjr. -/
def scan_cjalr (g : PGraph) (rs : RegisterSet) (b : BranchState)
    (cd_idx op1_cap_index pc : Nat) (op0_value : CheriCap) (cycles : Nat)
    (is_kernel : Bool) (has_exc : Bool) :
    Except BuilderError (PGraph × RegisterSet × BranchState) :=
  let step :=
    if has_pcc g rs true = false then
      let (g1, n) := make_root_node g op0_value cycles pc is_kernel
      (g1, n)
    else
      (g, rs.pcc.getD 0)
  let ga := step.1
  let old_pcc_node := step.2
  let (gb, rsb) := set_reg ga rs cd_idx (some old_pcc_node)
  if has_reg gb rsb op1_cap_index false then
    match rsb.reg_nodes.getD op1_cap_index none with
    | none => Except.error BuilderError.fault
    | some new_pcc =>
      let b1 := if has_exc then save_branch_state gb rsb b pc new_pcc else b
      let (g1, rs1) := set_pcc gb rsb (some new_pcc)
      if (g1.data new_pcc).cap.has_perm CheriCapPermEXEC then
        Except.ok (g1, rs1, b1)
      else Except.error BuilderError.unexpectedOperation
  else Except.error BuilderError.unexpectedOperation

/-- CapabilityBranchSubparser.scan_dmfc0: when a branch state is pending
and the value read from badvaddr (system register 8) matches the saved
branch address or the following instruction, the branch did not commit and
the epcc slot (register 31) is rewritten with the saved pcc vertex, after
asserting that the wrongly installed target gained no out-neighbours;
before any branch, the first badvaddr read captures the initial epcc and
badvaddr for the merge step. -/
def scan_dmfc0 (g : PGraph) (rs : RegisterSet) (b : BranchState)
    (op0_value op1_gpr_index : Nat) :
    Except BuilderError (PGraph × RegisterSet × BranchState) :=
  match b.saved_addr with
  | some saddr =>
    let b1 := { b with save_first_mfc := false }
    if op1_gpr_index = 8 then
      if op0_value = saddr ∨ op0_value = saddr + 4 then
        match rs.reg_nodes.getD 31 none, b1.saved_epcc_out_neighbours with
        | some v31, some lst =>
          if g.out_degree v31 = lst.length then
            let (g1, rs1) := set_reg g rs 31 b1.saved_pcc
            Except.ok (g1, rs1, { b1 with saved_addr := none })
          else Except.error BuilderError.fault
        | _, _ => Except.error BuilderError.fault
      else Except.ok (g, rs, { b1 with saved_addr := none })
    else Except.ok (g, rs, { b1 with saved_addr := none })
  | none =>
    if b.save_first_mfc ∧ op1_gpr_index = 8 then
      Except.ok (g, rs,
        { b with
          save_first_mfc := false,
          initial_badvaddr := some op0_value,
          initial_epcc := rs.reg_nodes.getD 31 none })
    else Except.ok (g, rs, b)

/-- CapabilityBranchSubparser.scan_ccall: raises NotImplementedError. -/
def scan_ccall (_b : BranchState) :
    Except BuilderError (PGraph × RegisterSet × BranchState) :=
  Except.error BuilderError.notImplemented

/-- CapabilityBranchSubparser.scan_creturn: raises NotImplementedError. -/
def scan_creturn (_b : BranchState) :
    Except BuilderError (PGraph × RegisterSet × BranchState) :=
  Except.error BuilderError.notImplemented

/-- State of the SyscallSubparser. -/
structure SyscallState where
  in_syscall : Bool
  pc_eret : Option Nat
  code : Option Nat
  exception_depth : Int
  initial_eret_cap : Option Nat
  initial_eret_addr : Option Nat
  initial_eret_time : Option Nat
  deriving DecidableEq, Repr

/-- SyscallSubparser initial state. -/
def SyscallState.init : SyscallState :=
  { in_syscall := false, pc_eret := none, code := none,
    exception_depth := 0, initial_eret_cap := none,
    initial_eret_addr := none, initial_eret_time := none }

/-- SyscallSubparser._get_syscall_code: the code register is $v0
(regs.gpr[1]); the indirect-syscall convention (code 0 or 198) reads the
effective code from $a0 (regs.gpr[3]). -/
def get_syscall_code (gpr1 gpr3 : Nat) : Nat :=
  if gpr1 = 0 ∨ gpr1 = 198 then gpr3 else gpr1

/-- SYS_RET marker of the syscall table. -/
def SYS_RET : Int := -1

/-- SyscallSubparser.syscall_codes: the fixed table of syscall codes of
interest, mapping a code to the register of the capability of interest
(SYS_RET means the return value). -/
def syscall_codes (code : Nat) : Option Int :=
  if code = 447 then some SYS_RET
  else if code = 228 then some SYS_RET
  else if code = 73 then some 3
  else if code = 230 then some 3
  else none

/-- SyscallSubparser.scan_syscall: derive the effective code; for argument
codes append a `syscall_arg` event to the vertex in the argument register;
for return codes set `in_syscall` and the expected eret pc; other codes are
ignored. -/
def scan_syscall (g : PGraph) (rs : RegisterSet) (st : SyscallState)
    (gpr1 gpr3 cycles pc : Nat) :
    Except BuilderError (PGraph × SyscallState) :=
  let code := get_syscall_code gpr1 gpr3
  let st1 := { st with code := some code }
  match syscall_codes code with
  | none => Except.ok (g, st1)
  | some r =>
    if r ≠ SYS_RET then
      match rs.reg_nodes.getD r.toNat none with
      | none => Except.error BuilderError.fault
      | some v =>
        Except.ok
          (g.setData v ((g.data v).add_use_syscall cycles code true), st1)
    else
      Except.ok (g, { st1 with in_syscall := true, pc_eret := some (pc + 4) })

/-- MergePartialSubgraph._merge_partial_vertex_data: append the source
vertex's events to the destination vertex's event log. -/
def merge_partial_vertex_data (u_data v_data : NodeData) : NodeData :=
  { v_data with events := v_data.events ++ u_data.events }

/-- MergePartialSubgraph._check_cap_compatible: two vertices may be merged
or suppressed only when base, length, permissions and object type agree. -/
def check_cap_compatible (u_data v_data : NodeData) : Bool :=
  !(u_data.cap.base != v_data.cap.base ||
    u_data.cap.length != v_data.cap.length ||
    u_data.cap.permissions != v_data.cap.permissions ||
    u_data.cap.objtype != v_data.cap.objtype)

/-- The worker-side pcc-fixup partial result
(CapabilityBranchSubparser.mp_result); after a merge step the saved pcc is
re-expressed as a merged-graph vertex (get_final_pcc_fixup). -/
structure PccFixupInfo where
  saved_addr : Option Nat
  saved_pcc : Option Nat
  epcc_out_neighbours : Option (List Nat)
  epcc : Option Nat
  badvaddr : Option Nat
  deriving DecidableEq, Repr

/-- The worker-side syscall partial result (SyscallSubparser.mp_result);
after a merge step the eret capability is re-expressed as a merged-graph
vertex (get_final_syscall). -/
structure SyscallMergeInfo where
  code : Option Nat
  active : Bool
  pc_eret : Option Nat
  eret_time : Option Nat
  eret_cap : Option Nat
  eret_addr : Option Nat
  deriving DecidableEq, Repr

/-- Mutable state of one MergePartialSubgraph step: the worker subgraph
(mutated when suppressed-ROOT children are reparented), the merged graph,
the copy and omit vertex maps, and the previous-step register set, pcc and
vertex-memory map (mutated by the pcc fixup). -/
structure MergeStepState where
  sub : PGraph
  merged : PGraph
  cvm : List Int
  ovm : List Bool
  prev_reg_nodes : List (Option Int)
  prev_pcc : Option Int
  prev_vmap : List (Nat × Nat)
  deriving DecidableEq, Repr

/-- Read-only inputs of one merge step: the step index, the worker's
initial register placeholders and initial memory map, and the pcc-fixup
and syscall boundary data of the current and previous windows. -/
structure StepInputs where
  step_idx : Nat
  initial_reg_nodes : List Nat
  initial_pcc : Nat
  initial_map : List (Nat × Nat)
  fixup_epcc : Option Nat
  fixup_badvaddr : Option Nat
  prev_saved_addr : Option Nat
  prev_saved_pcc : Option Nat
  syscall_eret_cap : Option Nat
  prev_syscall : Option SyscallMergeInfo
  curr_eret_addr : Option Nat
  curr_eret_time : Option Nat
  deriving DecidableEq, Repr

/-- Inner loop of _merge_trace_beginning: check each further ROOT child
against the first root's capability and concatenate its events. -/
def merge_roots_loop (sub : PGraph) :
    NodeData → List Nat → Except BuilderError NodeData
  | root_data, [] => Except.ok root_data
  | root_data, v :: rest =>
    let v_data := sub.data v
    if check_cap_compatible root_data v_data then
      merge_roots_loop sub (merge_partial_vertex_data v_data root_data) rest
    else Except.error BuilderError.subgraphMerge

/-- MergePartialSubgraph._merge_trace_beginning: coalesce the ROOT children
of an initial placeholder of the first window into one merged-graph vertex;
non-ROOT children without a sibling ROOT are a MissingParentError. -/
def merge_trace_beginning (st : MergeStepState) (u : Nat) :
    Except BuilderError MergeStepState :=
  let outs := st.sub.out_neighbours u
  let roots := outs.filter
    (fun w => (st.sub.data w).origin == CheriNodeOrigin.ROOT)
  let other := outs.filter
    (fun w => (st.sub.data w).origin != CheriNodeOrigin.ROOT)
  match roots with
  | [] =>
    if other.isEmpty then Except.ok st
    else Except.error BuilderError.missingParent
  | r0 :: rest =>
    match merge_roots_loop st.sub (st.sub.data r0) rest with
    | Except.error e => Except.error e
    | Except.ok root_data =>
      let (m1, merged_root) := st.merged.add_vertex root_data
      let cvm1 := (r0 :: rest).foldl
        (fun acc v => acc.set v (Int.ofNat merged_root)) st.cvm
      let ovm1 := (r0 :: rest).foldl (fun acc v => acc.set v true) st.ovm
      let st1 := { st with merged := m1, cvm := cvm1, ovm := ovm1 }
      if other.isEmpty then Except.ok st1
      else Except.ok { st1 with cvm := st1.cvm.set u (Int.ofNat merged_root) }

/-- MergePartialSubgraph._merge_initial_vertex_to_none: a placeholder with
no counterpart in the previous window must not have been dereferenced and
may only have ROOT children. -/
def merge_initial_vertex_to_none (st : MergeStepState) (u : Nat) :
    Except BuilderError MergeStepState :=
  let u_data := st.sub.data u
  let n_deref := (u_data.events.filter (fun e =>
      e.kind == EventKind.derefLoad || e.kind == EventKind.derefStore)).length
  if n_deref ≠ 0 then Except.error BuilderError.subgraphMerge
  else if (st.sub.out_neighbours u).any
      (fun w => (st.sub.data w).origin != CheriNodeOrigin.ROOT) then
    Except.error BuilderError.missingParent
  else Except.ok st

/-- Inner loop of _merge_initial_vertex_to_prev over the placeholder's
children: a ROOT child must hang off exactly one placeholder; its events
are merged into the previous-window vertex, and when its capability is
compatible it is suppressed and its children reparented onto the
placeholder inside the subgraph. -/
def merge_prev_children (u v : Nat) :
    PGraph → PGraph → List Bool → List Nat →
    Except BuilderError (PGraph × PGraph × List Bool)
  | sub, merged, ovm, [] => Except.ok (sub, merged, ovm)
  | sub, merged, ovm, w :: rest =>
    let w_data := sub.data w
    if w_data.origin = CheriNodeOrigin.ROOT then
      if (sub.in_neighbours w).length ≠ 1 then
        Except.error BuilderError.subgraphMerge
      else
        let merged1 := merged.setData v
          (merge_partial_vertex_data w_data (merged.data v))
        if check_cap_compatible w_data (merged1.data v) then
          let sub1 := { sub with
            edges := sub.edges ++ (sub.out_neighbours w).map (fun x => (u, x)) }
          merge_prev_children u v sub1 merged1 (ovm.set w true) rest
        else
          merge_prev_children u v sub merged1 ovm rest
    else merge_prev_children u v sub merged ovm rest

/-- MergePartialSubgraph._merge_initial_vertex_to_prev: map the placeholder
onto its previous-window vertex, fold its events in, and process its ROOT
children. -/
def merge_initial_vertex_to_prev (st : MergeStepState) (u v : Nat) :
    Except BuilderError MergeStepState :=
  let st1 := { st with
    cvm := st.cvm.set u (Int.ofNat v),
    merged := st.merged.setData v
      (merge_partial_vertex_data (st.sub.data u) (st.merged.data v)) }
  match merge_prev_children u v st1.sub st1.merged st1.ovm
      (st1.sub.out_neighbours u) with
  | Except.error e => Except.error e
  | Except.ok (sub2, merged2, ovm2) =>
    Except.ok { st1 with sub := sub2, merged := merged2, ovm := ovm2 }

/-- MergePartialSubgraph._merge_initial_vertex: dispatch an initial
register placeholder to the trace-beginning merge (first window) or to the
previous-window merge. -/
def merge_initial_vertex (inp : StepInputs) (st : MergeStepState) (u : Nat) :
    Except BuilderError MergeStepState :=
  if inp.step_idx = 0 then merge_trace_beginning st u
  else
    let v : Option Int :=
      if u ∈ inp.initial_reg_nodes then
        st.prev_reg_nodes.getD (inp.initial_reg_nodes.indexOf u) none
      else st.prev_pcc
    match v with
    | none => merge_initial_vertex_to_none st u
    | some vi =>
      if vi < 0 then merge_initial_vertex_to_none st u
      else merge_initial_vertex_to_prev st u vi.toNat

/-- MergePartialSubgraph._merge_subgraph_vertex: copy an ordinary vertex
into the merged graph, recreating the edges from already-translated
in-neighbours. -/
def merge_subgraph_vertex (st : MergeStepState) (u : Nat) : MergeStepState :=
  let (m1, v) := st.merged.add_vertex (st.sub.data u)
  let new_edges := (st.sub.in_neighbours u).filterMap (fun u_in =>
    let vi := st.cvm.getD u_in (-1)
    if vi ≥ 0 then some (vi.toNat, v) else none)
  { st with
    merged := { m1 with edges := m1.edges ++ new_edges },
    cvm := st.cvm.set u (Int.ofNat v) }

/-- MergePartialSubgraph._merge_initial_mem_vertex: reverse-look up the
placeholder's address in the worker's initial memory map; with no previous
vertex the vertex is merged normally (after a warning); with a compatible
previous vertex the ROOT is suppressed onto it; otherwise the merge
fails. -/
def merge_initial_mem_vertex (inp : StepInputs) (st : MergeStepState)
    (u : Nat) : Except BuilderError MergeStepState :=
  let u_addr := (inp.initial_map.find? (fun p => p.2 == u)).map (fun p => p.1)
  match u_addr.bind (fun a =>
      (st.prev_vmap.find? (fun p => p.1 == a)).map (fun p => p.2)) with
  | none => Except.ok (merge_subgraph_vertex st u)
  | some v =>
    let u_data := st.sub.data u
    let v_data := st.merged.data v
    if check_cap_compatible u_data v_data = false then
      Except.error BuilderError.subgraphMerge
    else
      Except.ok { st with
        cvm := st.cvm.set u (Int.ofNat v),
        merged := st.merged.setData v
          (merge_partial_vertex_data u_data v_data) }

/-- MergePartialSubgraph._merge_pcc_fixup: when the previous window saved a
capability branch that did not commit (badvaddr equals the saved address or
the next instruction), substitute the saved pcc into the previous register
set entry of the epcc placeholder before it is merged. -/
def merge_pcc_fixup (inp : StepInputs) (st : MergeStepState) (u : Nat) :
    Except BuilderError MergeStepState :=
  match inp.fixup_badvaddr, inp.prev_saved_addr with
  | none, none => Except.ok st
  | badv, some jmp =>
    if badv = some jmp ∨ badv = some (jmp + 4) then
      if (st.sub.data u).origin = CheriNodeOrigin.PARTIAL then
        if u ∈ inp.initial_reg_nodes then
          Except.ok { st with
            prev_reg_nodes := st.prev_reg_nodes.set
              (inp.initial_reg_nodes.indexOf u)
              (inp.prev_saved_pcc.map Int.ofNat) }
        else Except.error BuilderError.fault
      else Except.error BuilderError.subgraphMerge
    else Except.ok st
  | some _, none => Except.error BuilderError.fault

/-- MergePartialSubgraph._merge_syscall: when the previous window stopped
inside a syscall whose eret lands at the current window's initial eret
address, record the syscall return on the eret capability vertex. -/
def merge_syscall (inp : StepInputs) (st : MergeStepState) (u : Nat) :
    MergeStepState :=
  match inp.prev_syscall with
  | none => st
  | some ps =>
    if ps.active = false then st
    else if ps.pc_eret = inp.curr_eret_addr then
      let d := (st.sub.data u).add_use_syscall (inp.curr_eret_time.getD 0)
        (ps.code.getD 0) false
      { st with sub := st.sub.setData u d }
    else st

/-- MergePartialSubgraph.examine_vertex: classify a subgraph vertex as
initial register placeholder, initial memory placeholder (later windows
only) or ordinary vertex, running the pcc-fixup and syscall merges first
when the vertex is the one they marked. -/
def examine_vertex (inp : StepInputs) (st : MergeStepState) (u : Nat) :
    Except BuilderError MergeStepState :=
  if st.ovm.getD u false then Except.ok st
  else if inp.step_idx = 0 then
    if u ∈ inp.initial_reg_nodes ∨ u = inp.initial_pcc then
      merge_initial_vertex inp st u
    else Except.ok (merge_subgraph_vertex st u)
  else
    match (if inp.fixup_epcc = some u then merge_pcc_fixup inp st u
           else Except.ok st) with
    | Except.error e => Except.error e
    | Except.ok st1 =>
      let st2 := if inp.syscall_eret_cap = some u then merge_syscall inp st1 u
                 else st1
      if u ∈ inp.initial_reg_nodes ∨ u = inp.initial_pcc then
        merge_initial_vertex inp st2 u
      else if inp.initial_map.any (fun p => p.2 == u) then
        merge_initial_mem_vertex inp st2 u
      else Except.ok (merge_subgraph_vertex st2 u)

/-- bfs_transform over the subgraph: run examine_vertex on each vertex in
visit order. -/
def merge_step_run (inp : StepInputs) :
    MergeStepState → List Nat → Except BuilderError MergeStepState
  | st, [] => Except.ok st
  | st, u :: rest =>
    match examine_vertex inp st u with
    | Except.error e => Except.error e
    | Except.ok st1 => merge_step_run inp st1 rest

/-- MergePartialSubgraph.get_final_regset and the pcc part of it: express
the worker's final register set in merged-graph vertices; a register whose
vertex was not copied becomes None, while the pcc keeps the raw (possibly
negative) translation. -/
def get_final_regset (cvm : List Int) (final_reg_nodes : List (Option Nat))
    (final_pcc : Option Nat) : List (Option Int) × Option Int :=
  (final_reg_nodes.map (fun v? =>
     match v? with
     | none => none
     | some v => if cvm.getD v (-1) < 0 then none else some (cvm.getD v (-1))),
   final_pcc.map (fun v => cvm.getD v (-1)))

/-- MergePartialSubgraph.get_final_vmap: keep only the addresses whose
vertex was copied to the merged graph. -/
def get_final_vmap (cvm : List Int) (vmap : List (Nat × Nat)) :
    List (Nat × Nat) :=
  vmap.filterMap (fun p =>
    let v := cvm.getD p.2 (-1)
    if v ≥ 0 then some (p.1, v.toNat) else none)

/-- MergePartialSubgraph.get_final_pcc_fixup: a saved pcc that was not
copied to the merged graph is a SubgraphMergeError. -/
def get_final_pcc_fixup (cvm : List Int) (f : PccFixupInfo) :
    Except BuilderError PccFixupInfo :=
  match f.saved_pcc with
  | none => Except.ok f
  | some v =>
    let vi := cvm.getD v (-1)
    if vi < 0 then Except.error BuilderError.subgraphMerge
    else Except.ok { f with saved_pcc := some vi.toNat }

/-- MergePartialSubgraph.get_final_syscall: an eret capability that was not
copied to the merged graph is a SubgraphMergeError (beyond the first
step). -/
def get_final_syscall (cvm : List Int) (step_idx : Nat)
    (s : SyscallMergeInfo) : Except BuilderError SyscallMergeInfo :=
  match s.eret_cap with
  | none => Except.ok s
  | some v =>
    if step_idx > 0 then
      let vi := cvm.getD v (-1)
      if vi < 0 then Except.error BuilderError.subgraphMerge
      else Except.ok { s with eret_cap := some vi.toNat }
    else Except.ok s

/-- The result bundle one worker emits (PointerProvenanceParser.mp_result),
together with the BFS visit order of its subgraph that the merge step
uses. -/
structure WorkerResult where
  sub : PGraph
  initial_reg_nodes : List Nat
  initial_pcc : Nat
  final_reg_nodes : List (Option Nat)
  final_pcc : Option Nat
  vmap : List (Nat × Nat)
  initial_map : List (Nat × Nat)
  pcc_fixup : PccFixupInfo
  syscall : SyscallMergeInfo
  order : List Nat
  deriving DecidableEq, Repr

/-- MergePartialSubgraphContext: the merged graph and the previous-step
snapshots carried between merge steps. -/
structure MergeCtx where
  merged : PGraph
  prev_reg_nodes : List (Option Int)
  prev_pcc : Option Int
  prev_vmap : List (Nat × Nat)
  prev_pcc_fixup : Option PccFixupInfo
  prev_syscall : Option SyscallMergeInfo
  step_idx : Nat
  deriving DecidableEq, Repr

/-- The merge context before the first step. -/
def MergeCtx.init : MergeCtx :=
  { merged := PGraph.empty, prev_reg_nodes := [], prev_pcc := none,
    prev_vmap := [], prev_pcc_fixup := none, prev_syscall := none,
    step_idx := 0 }

/-- MergePartialSubgraphContext.step followed by
MergePartialSubgraph.finalize: run the BFS transform over the worker
subgraph and recompute the previous-step snapshots for the next step. -/
def merge_ctx_step (ctx : MergeCtx) (w : WorkerResult) :
    Except BuilderError MergeCtx :=
  let inp : StepInputs :=
    { step_idx := ctx.step_idx,
      initial_reg_nodes := w.initial_reg_nodes,
      initial_pcc := w.initial_pcc,
      initial_map := w.initial_map,
      fixup_epcc := w.pcc_fixup.epcc,
      fixup_badvaddr := w.pcc_fixup.badvaddr,
      prev_saved_addr := ctx.prev_pcc_fixup.bind (fun f => f.saved_addr),
      prev_saved_pcc := ctx.prev_pcc_fixup.bind (fun f => f.saved_pcc),
      syscall_eret_cap := w.syscall.eret_cap,
      prev_syscall := ctx.prev_syscall,
      curr_eret_addr := w.syscall.eret_addr,
      curr_eret_time := w.syscall.eret_time }
  let st0 : MergeStepState :=
    { sub := w.sub, merged := ctx.merged,
      cvm := List.replicate w.sub.size (-1),
      ovm := List.replicate w.sub.size false,
      prev_reg_nodes := ctx.prev_reg_nodes,
      prev_pcc := ctx.prev_pcc,
      prev_vmap := ctx.prev_vmap }
  match merge_step_run inp st0 w.order with
  | Except.error e => Except.error e
  | Except.ok st =>
    let final := get_final_regset st.cvm w.final_reg_nodes w.final_pcc
    match get_final_pcc_fixup st.cvm w.pcc_fixup,
          get_final_syscall st.cvm ctx.step_idx w.syscall with
    | Except.error e, _ => Except.error e
    | _, Except.error e => Except.error e
    | Except.ok pf, Except.ok sy =>
      Except.ok
        { merged := st.merged,
          prev_reg_nodes := final.1,
          prev_pcc := final.2,
          prev_vmap := get_final_vmap st.cvm w.vmap,
          prev_pcc_fixup := some pf,
          prev_syscall := some sy,
          step_idx := ctx.step_idx + 1 }

/-- PointerProvenanceParser.mp_merge: merge the worker result bundles in
trace order. -/
def mp_merge : MergeCtx → List WorkerResult → Except BuilderError MergeCtx
  | ctx, [] => Except.ok ctx
  | ctx, w :: rest =>
    match merge_ctx_step ctx w with
    | Except.error e => Except.error e
    | Except.ok ctx1 => mp_merge ctx1 rest

/-- Vertex data of the 33 dummy placeholders a worker creates at window
start (PointerProvenanceParser._do_parse). -/
def partial_node_data : NodeData :=
  { cap := CheriCap.null, origin := CheriNodeOrigin.PARTIAL, pc := 0,
    is_kernel := false, events := [] }

/-- PointerProvenanceParser._do_parse initial graph: 32 register
placeholders (vertices 0..31) plus the pcc placeholder (vertex 32), no
edges. -/
def worker_initial_graph : PGraph :=
  { vdata := List.replicate 33 partial_node_data, edges := [] }

/-- PointerProvenanceParser._do_parse initial register set: register i
holds placeholder vertex i, pcc holds placeholder vertex 32. -/
def worker_initial_regset : RegisterSet :=
  { reg_nodes := (List.range 32).map some, pcc := some 32 }

/-- Worker state right after _do_parse set up the placeholders. -/
def worker_init_state : ParserState :=
  { pgm := worker_initial_graph, regset := worker_initial_regset,
    vertex_map := { vertex_map := [] } }

/-- The primitive mutations of the worker's graph and register set.  Every
instruction handler of PointerProvenanceParser and its subparsers changes
the graph and register set only through these: creating a ROOT vertex
(make_root_node), creating a derived vertex (make_node inside
scan_csetbounds / scan_cfromptr / scan_candperm), assigning a register or
pcc slot (RegisterSet.__setitem__ / the pcc setter, used by update_regs,
the cpreg handlers, the branch and exception handlers), and the capability
load/store handlers scan_clc / scan_csc. -/
inductive WorkerOp where
  | mkRoot (cap : CheriCap) (cycles pc : Nat) (is_kernel : Bool)
  | csetbounds (src dst : Nat) (cap : CheriCap) (pc : Nat) (is_kernel : Bool)
  | cfromptr (src dst : Nat) (cap : CheriCap) (pc : Nat) (is_kernel : Bool)
  | candperm (src dst : Nat) (cap : CheriCap) (pc : Nat) (is_kernel : Bool)
  | setRegOp (idx : Nat) (val : Option Nat)
  | setPccOp (val : Option Nat)
  | clcOp (e : ClcRecord)
  | cscOp (e : CscRecord)
  deriving DecidableEq, Repr

/-- Shared body of scan_csetbounds / scan_cfromptr / scan_candperm: create
the derived node and install it in the destination register. -/
def derive_scan (s : ParserState) (src dst : Nat) (cap : CheriCap) (pc : Nat)
    (is_kernel : Bool) (origin : CheriNodeOrigin) :
    Except BuilderError ParserState :=
  match make_node s.pgm s.regset src
      { cap := cap, origin := origin, pc := pc, is_kernel := is_kernel,
        events := [] } with
  | Except.error e => Except.error e
  | Except.ok (g1, node) =>
    let (g2, rs2) := set_reg g1 s.regset dst (some node)
    Except.ok { s with pgm := g2, regset := rs2 }

/-- Interpret one worker primitive.  A register assignment naming a vertex
handle that does not exist in the graph cannot arise in a run of the
parser and is mapped to a fault. -/
def apply_worker_op (s : ParserState) : WorkerOp → Except BuilderError ParserState
  | WorkerOp.mkRoot cap cycles pc k =>
    Except.ok { s with pgm := (make_root_node s.pgm cap cycles pc k).1 }
  | WorkerOp.csetbounds src dst cap pc k =>
    derive_scan s src dst cap pc k CheriNodeOrigin.SETBOUNDS
  | WorkerOp.cfromptr src dst cap pc k =>
    derive_scan s src dst cap pc k CheriNodeOrigin.FROMPTR
  | WorkerOp.candperm src dst cap pc k =>
    derive_scan s src dst cap pc k CheriNodeOrigin.ANDPERM
  | WorkerOp.setRegOp idx val =>
    match val with
    | some v =>
      if v < s.pgm.size then
        let (g, rs) := set_reg s.pgm s.regset idx (some v)
        Except.ok { s with pgm := g, regset := rs }
      else Except.error BuilderError.fault
    | none =>
      let (g, rs) := set_reg s.pgm s.regset idx none
      Except.ok { s with pgm := g, regset := rs }
  | WorkerOp.setPccOp val =>
    match val with
    | some v =>
      if v < s.pgm.size then
        let (g, rs) := set_pcc s.pgm s.regset (some v)
        Except.ok { s with pgm := g, regset := rs }
      else Except.error BuilderError.fault
    | none =>
      let (g, rs) := set_pcc s.pgm s.regset none
      Except.ok { s with pgm := g, regset := rs }
  | WorkerOp.clcOp e => Except.ok (scan_clc s e)
  | WorkerOp.cscOp e => Except.ok (scan_csc s e)

/-- Run a list of worker primitives. -/
def apply_worker_ops : ParserState → List WorkerOp →
    Except BuilderError ParserState
  | s, [] => Except.ok s
  | s, op :: rest =>
    match apply_worker_op s op with
    | Except.error e => Except.error e
    | Except.ok s1 => apply_worker_ops s1 rest

/-- Containment of a child capability in a parent capability, as the
specification states it for provenance edges. -/
def cap_contained (child parent : CheriCap) : Prop :=
  parent.base ≤ child.base ∧
  child.base + child.length ≤ parent.base + parent.length ∧
  child.permissions &&& parent.permissions = child.permissions

instance (c p : CheriCap) : Decidable (cap_contained c p) :=
  inferInstanceAs (Decidable (p.base ≤ c.base ∧
    c.base + c.length ≤ p.base + p.length ∧
    c.permissions &&& p.permissions = c.permissions))

/-- Every edge whose source is not a PARTIAL placeholder satisfies
capability containment. -/
def edges_contained (g : PGraph) : Prop :=
  ∀ e ∈ g.edges, (g.data e.1).origin ≠ CheriNodeOrigin.PARTIAL →
    cap_contained (g.data e.2).cap (g.data e.1).cap

/-- No vertex of the graph has origin PARTIAL. -/
def no_partial (g : PGraph) : Prop :=
  ∀ v, (g.data v).origin ≠ CheriNodeOrigin.PARTIAL

/-- Every PARTIAL vertex of the graph is one of the given initial register
placeholders. -/
def partial_only_initial (g : PGraph) (regs : List Nat) (pcc : Nat) : Prop :=
  ∀ v, (g.data v).origin = CheriNodeOrigin.PARTIAL → v ∈ regs ∨ v = pcc

/-- Modelled from the spec: the specification's reading of
`has(i, allow_root)` — true iff the slot is non-null and, when
`allow_root = false`, the held vertex is not PARTIAL (compared against the
code's has_reg for the C4 refinement claim). -/
def has_reg_spec (g : PGraph) (rs : RegisterSet) (idx : Nat)
    (allow_root : Bool) : Bool :=
  match rs.reg_nodes.getD idx none with
  | none => false
  | some v =>
    if allow_root = false then
      (g.data v).origin != CheriNodeOrigin.PARTIAL
    else true

/-- A ROOT vertex with read/write permissions used by the examples. -/
def capRW : CheriCap :=
  { base := 0x1000, length := 0x1000, offset := 0, permissions := 3,
    objtype := 0, valid := true, t_alloc := 0 }

/-- An invalid (untagged) capability used by the examples. -/
def capInvalid : CheriCap :=
  { base := 0, length := 0, offset := 0, permissions := 0,
    objtype := 0, valid := false, t_alloc := 0 }

/-- ROOT vertex data over a given capability. -/
def rootData (c : CheriCap) : NodeData :=
  { cap := c, origin := CheriNodeOrigin.ROOT, pc := 0, is_kernel := false,
    events := [] }

theorem vm_get_mem_store_self (m : VertexMemoryMap) (a v : Nat) :
    (m.mem_store a v).get a = some v := by
  simp [VertexMemoryMap.get, VertexMemoryMap.mem_store, List.find?]

theorem vm_get_clear_self (m : VertexMemoryMap) (a : Nat) :
    (m.clear a).get a = none := by
  simp only [VertexMemoryMap.get, VertexMemoryMap.clear]
  rw [List.find?_eq_none.mpr]
  · rfl
  · intro x hx
    have hmem := List.mem_filter.mp hx
    simp only [bne_iff_ne, ne_eq, decide_not] at hmem
    simp only [beq_iff_eq]
    intro hx1
    exact absurd (by simpa using hmem.2) (by simp [hx1])

theorem attach_vdata (g : PGraph) (a b : Option Nat) :
    (attach_subgraph_merge g a b).vdata = g.vdata := by
  unfold attach_subgraph_merge
  cases b with
  | none => cases a <;> rfl
  | some iv =>
    cases a with
    | none => rfl
    | some rv =>
      dsimp only
      split
      · split
        · rfl
        · split <;> rfl
      · rfl

theorem attach_data (g : PGraph) (a b : Option Nat) (v : Nat) :
    (attach_subgraph_merge g a b).data v = g.data v := by
  unfold PGraph.data
  rw [attach_vdata]

theorem data_add_vertex_self (g : PGraph) (d : NodeData) :
    ((g.add_vertex d).1).data g.size = d := by
  simp only [PGraph.add_vertex, PGraph.data, PGraph.size]
  rw [List.getD_eq_getElem?_getD, List.getElem?_append_right (Nat.le_refl _)]
  simp

theorem data_add_vertex_lt (g : PGraph) (d : NodeData) (v : Nat)
    (h : v < g.size) : ((g.add_vertex d).1).data v = g.data v := by
  simp only [PGraph.add_vertex, PGraph.data, PGraph.size] at *
  rw [List.getD_eq_getElem?_getD, List.getElem?_append, if_pos h,
    ← List.getD_eq_getElem?_getD]

theorem data_setData_self (g : PGraph) (n : Nat) (d : NodeData)
    (h : n < g.size) : (g.setData n d).data n = d := by
  simp only [PGraph.setData, PGraph.data, PGraph.size] at *
  rw [List.getD_eq_getElem?_getD, List.getElem?_set_eq_of_lt d h]
  rfl

theorem data_setData_ne (g : PGraph) (n : Nat) (d : NodeData) (v : Nat)
    (h : v ≠ n) : (g.setData n d).data v = g.data v := by
  simp only [PGraph.setData, PGraph.data]
  rw [List.getD_eq_getElem?_getD, List.getElem?_set_ne (by omega),
    ← List.getD_eq_getElem?_getD]

/-- Example state for the C4 counterexample: a single PARTIAL vertex held
by register 0 and by pcc. -/
def gC4 : PGraph := { vdata := [partial_node_data], edges := [] }

/-- Register set of the C4 counterexample. -/
def rsC4 : RegisterSet :=
  { reg_nodes := (List.replicate 32 (none : Option Nat)).set 0 (some 0),
    pcc := some 0 }

/-- C4 counterexample: with `allow_root = false` and a PARTIAL vertex in
slot 0, has_reg (and has_pcc) return true, while the claimed reading
("non-null and, when allow_root = false, not PARTIAL") returns false: the
code performs the PARTIAL check when allow_root is true, not false. -/
theorem has_reg_claim_counterexample :
    has_reg gC4 rsC4 0 false = true ∧
    has_reg_spec gC4 rsC4 0 false = false ∧
    has_pcc gC4 rsC4 false = true ∧
    (gC4.data 0).origin = CheriNodeOrigin.PARTIAL := by decide

/-- C4 (amended): has_reg(i, allow_root) is true iff slot i is non-null
and, in the case allow_root = true, the held vertex additionally does not
have origin PARTIAL; with allow_root = false every non-null slot yields
true.  The same holds for has_pcc. -/
theorem has_reg_allow_root_semantics (g : PGraph) (rs : RegisterSet)
    (idx : Nat) (ar : Bool) :
    (has_reg g rs idx ar = true ↔
      ∃ v, rs.reg_nodes.getD idx none = some v ∧
        (ar = true → (g.data v).origin ≠ CheriNodeOrigin.PARTIAL)) ∧
    (has_pcc g rs ar = true ↔
      ∃ v, rs.pcc = some v ∧
        (ar = true → (g.data v).origin ≠ CheriNodeOrigin.PARTIAL)) := by
  constructor
  · unfold has_reg
    cases h : rs.reg_nodes.getD idx none with
    | none => simp
    | some v =>
      cases ar with
      | false => simp
      | true =>
        by_cases hp : (g.data v).origin = CheriNodeOrigin.PARTIAL <;>
          simp [hp]
  · unfold has_pcc
    cases h : rs.pcc with
    | none => simp
    | some v =>
      cases ar with
      | false => simp
      | true =>
        by_cases hp : (g.data v).origin = CheriNodeOrigin.PARTIAL <;>
          simp [hp]

/-- C4 witness: the amended reading evaluated at the counterexample state
with allow_root = true. -/
theorem has_reg_allow_root_witness :
    has_reg gC4 rsC4 0 true = true ↔
      ∃ v, rsC4.reg_nodes.getD 0 none = some v ∧
        (true = true → (gC4.data v).origin ≠ CheriNodeOrigin.PARTIAL) :=
  (has_reg_allow_root_semantics gC4 rsC4 0 true).1

/-- Empty parser state used by the C6 counterexample. -/
def sC6 : ParserState :=
  { pgm := PGraph.empty,
    regset := { reg_nodes := List.replicate 32 none, pcc := none },
    vertex_map := { vertex_map := [] } }

/-- C6 counterexample: the three unsupported handlers fail with
NotImplementedError, which is not the Unexpected error kind
(UnexpectedOperationError). -/
theorem unsupported_ops_counterexample :
    scan_cclearregs sC6 = Except.error BuilderError.notImplemented ∧
    scan_ccall BranchState.init = Except.error BuilderError.notImplemented ∧
    scan_creturn BranchState.init =
      Except.error BuilderError.notImplemented ∧
    BuilderError.notImplemented ≠ BuilderError.unexpectedOperation :=
  ⟨rfl, rfl, rfl, by decide⟩

/-- C6 (amended): for every occurrence of cclearregs, ccall or creturn the
builder fails, with Python's NotImplementedError rather than with
UnexpectedOperationError. -/
theorem unsupported_ops_raise_not_implemented (s : ParserState)
    (b1 b2 : BranchState) :
    scan_cclearregs s = Except.error BuilderError.notImplemented ∧
    scan_ccall b1 = Except.error BuilderError.notImplemented ∧
    scan_creturn b2 = Except.error BuilderError.notImplemented :=
  ⟨rfl, rfl, rfl⟩

/-- C9: a clc that delivered a valid capability but took an exception and
left the destination register unchanged (the load did not commit) changes
nothing: register set, memory-vertex map and graph are all left exactly as
they were. -/
theorem clc_no_commit_frame (s : ParserState) (e : ClcRecord)
    (hv : e.value.valid = true) (heq : e.old_cd = e.curr_cd)
    (hexc : e.exception ≠ 31) :
    scan_clc s e = s := by
  unfold scan_clc
  rw [if_neg (by simp [hv]), if_pos ⟨heq, by simp [has_exception, hexc]⟩]

/-- Concrete clc record for the C9 witness: valid loaded value, unchanged
destination register, exception code 5. -/
def eC9 : ClcRecord :=
  { cd := 4, value := capRW, memory_address := 0x2000, cycles := 10,
    exception := 5, old_cd := capRW, curr_cd := capRW, pc := 0x40,
    is_kernel := false }

/-- C9 witness: the frame theorem evaluated at a concrete state. -/
theorem clc_no_commit_frame_witness :
    eC9.value.valid = true ∧ eC9.old_cd = eC9.curr_cd ∧ eC9.exception ≠ 31 ∧
    scan_clc sC6 eC9 = sC6 :=
  ⟨by decide, by decide, by decide,
    clc_no_commit_frame sC6 eC9 (by decide) (by decide) (by decide)⟩

/-- Parser state for the C8 counterexample: one ROOT vertex held by
register 1, empty memory-vertex map. -/
def sC8 : ParserState :=
  { pgm := { vdata := [rootData capRW], edges := [] },
    regset :=
      { reg_nodes := (List.replicate 32 (none : Option Nat)).set 1 (some 0),
        pcc := none },
    vertex_map := { vertex_map := [] } }

/-- Valid capability store to 0x2000 from register 1. -/
def eC8valid : CscRecord :=
  { cd := 1, value := capRW, memory_address := 0x2000, cycles := 5, pc := 0,
    is_kernel := false }

/-- Invalid capability store to the same address from register 2. -/
def eC8invalid : CscRecord :=
  { cd := 2, value := capInvalid, memory_address := 0x2000, cycles := 6,
    pc := 4, is_kernel := false }

/-- C8 counterexample: after a csc of an invalid capability to address
0x2000, the memory-vertex map entry still holds the vertex of the earlier
valid store (scan_csc ignores invalid stores; it does not clear the
entry), contradicting the claim that the entry no longer holds it. -/
theorem csc_invalid_counterexample :
    eC8invalid.value.valid = false ∧
    (scan_csc (scan_csc sC8 eC8valid) eC8invalid).vertex_map.get 0x2000 =
      some 0 := by
  constructor
  · decide
  · decide

/-- C8 (amended): the memory-vertex map entry at address A is the vertex
most recently stored to A by a csc of a valid capability — a fresh ROOT
when the source register was unseen — and becomes None when a clc at A
observes an invalid capability; a csc of an invalid capability changes
nothing at all (it does not clear the entry). -/
theorem memvmap_store_semantics (s : ParserState) (e : CscRecord)
    (e2 : ClcRecord) :
    (e.value.valid = false → scan_csc s e = s) ∧
    (∀ n, e.value.valid = true → has_reg s.pgm s.regset e.cd true = true →
      s.regset.reg_nodes.getD e.cd none = some n →
      (scan_csc s e).vertex_map.get e.memory_address = some n) ∧
    (e.value.valid = true → has_reg s.pgm s.regset e.cd true = false →
      (scan_csc s e).vertex_map.get e.memory_address = some s.pgm.size ∧
      ((scan_csc s e).pgm.data s.pgm.size).origin = CheriNodeOrigin.ROOT) ∧
    (e2.value.valid = false →
      (scan_clc s e2).vertex_map.get e2.memory_address = none) := by
  refine ⟨?_, ?_, ?_, ?_⟩
  · intro hv
    unfold scan_csc
    rw [if_neg (by simp [hv])]
  · intro n hv hr hn
    unfold scan_csc
    rw [if_pos hv]
    rw [if_neg (by simp [hr])]
    simp only [hn, Option.getD_some]
    exact vm_get_mem_store_self _ _ _
  · intro hv hr
    have hcsc : scan_csc s e =
        { pgm := (set_reg (make_root_node s.pgm e.value e.cycles e.pc
              e.is_kernel).1 s.regset e.cd (some s.pgm.size)).1.setData
              s.pgm.size
              (((set_reg (make_root_node s.pgm e.value e.cycles e.pc
                e.is_kernel).1 s.regset e.cd (some s.pgm.size)).1.data
                s.pgm.size).add_mem_store e.cycles e.memory_address),
          regset := (set_reg (make_root_node s.pgm e.value e.cycles e.pc
              e.is_kernel).1 s.regset e.cd (some s.pgm.size)).2,
          vertex_map := s.vertex_map.mem_store e.memory_address
            s.pgm.size } := by
      unfold scan_csc
      rw [if_pos hv, if_pos hr]
      rfl
    rw [hcsc]
    constructor
    · exact vm_get_mem_store_self _ _ _
    · simp only [set_reg, make_root_node]
      rw [data_setData_self]
      · rw [attach_data, data_add_vertex_self]
        rfl
      · simp [PGraph.size, attach_vdata, PGraph.add_vertex]
  · intro hv
    unfold scan_clc
    rw [if_pos hv]
    cases hnode : (s.vertex_map.mem_load e2.memory_address none).2 with
    | none => simpa [VertexMemoryMap.mem_load] using hnode
    | some m => exact vm_get_clear_self _ _

/-- C8 witness: the invalid-store frame conjunct evaluated at the
counterexample state. -/
theorem memvmap_store_semantics_witness :
    eC8invalid.value.valid = false ∧ scan_csc sC8 eC8invalid = sC8 :=
  ⟨by decide, (memvmap_store_semantics sC8 eC8invalid eC9).1 (by decide)⟩

/-- C7: on a syscall the effective code is the primary-code register value
unless that value is 0 or 198 (then it is the first argument register's
value); code 73 or 230 immediately appends a syscall_arg event with that
code and cycle to the vertex in capability register c3; code 447 or 228
sets in_syscall and pc_eret = pc + 4; any other code changes neither the
event logs nor the syscall sub-state fields beyond recording the code. -/
theorem syscall_code_and_effects (g : PGraph) (rs : RegisterSet)
    (st : SyscallState) (gpr1 gpr3 cycles pc : Nat) (v : Nat)
    (h3 : rs.reg_nodes.getD 3 none = some v) :
    (get_syscall_code gpr1 gpr3 =
      if gpr1 = 0 ∨ gpr1 = 198 then gpr3 else gpr1) ∧
    (get_syscall_code gpr1 gpr3 = 73 ∨ get_syscall_code gpr1 gpr3 = 230 →
      scan_syscall g rs st gpr1 gpr3 cycles pc =
        Except.ok (g.setData v ((g.data v).add_use_syscall cycles
            (get_syscall_code gpr1 gpr3) true),
          { st with code := some (get_syscall_code gpr1 gpr3) })) ∧
    (get_syscall_code gpr1 gpr3 = 447 ∨ get_syscall_code gpr1 gpr3 = 228 →
      scan_syscall g rs st gpr1 gpr3 cycles pc =
        Except.ok (g, { st with
          code := some (get_syscall_code gpr1 gpr3),
          in_syscall := true, pc_eret := some (pc + 4) })) ∧
    (get_syscall_code gpr1 gpr3 ∉ ([73, 230, 447, 228] : List Nat) →
      scan_syscall g rs st gpr1 gpr3 cycles pc =
        Except.ok (g, { st with
          code := some (get_syscall_code gpr1 gpr3) })) := by
  have h3' : rs.reg_nodes[3]?.getD none = some v := by
    rw [← List.getD_eq_getElem?_getD]; exact h3
  refine ⟨rfl, ?_, ?_, ?_⟩
  · intro h
    rcases h with h | h <;>
      simp [scan_syscall, h, syscall_codes, SYS_RET, h3']
  · intro h
    rcases h with h | h <;>
      simp [scan_syscall, h, syscall_codes, SYS_RET, h3]
  · intro h
    simp only [List.mem_cons, List.not_mem_nil, or_false, not_or] at h
    obtain ⟨h1, h2, h3', h4⟩ := h
    simp [scan_syscall, syscall_codes, h1, h2, h3', h4]

/-- Graph for the C7 witness: a single ROOT vertex. -/
def gC7 : PGraph := { vdata := [rootData capRW], edges := [] }

/-- Register set for the C7 witness: capability register c3 holds vertex
0. -/
def rsC7 : RegisterSet :=
  { reg_nodes := (List.replicate 32 (none : Option Nat)).set 3 (some 0),
    pcc := none }

/-- C7 witness: syscall code 73 (munmap) appends a syscall_arg event to
the vertex in c3. -/
theorem syscall_code_and_effects_witness :
    rsC7.reg_nodes.getD 3 none = some 0 ∧
    (get_syscall_code 73 0 = 73 ∨ get_syscall_code 73 0 = 230) ∧
    scan_syscall gC7 rsC7 SyscallState.init 73 0 9 100 =
      Except.ok (gC7.setData 0 ((gC7.data 0).add_use_syscall 9
          (get_syscall_code 73 0) true),
        { SyscallState.init with code := some (get_syscall_code 73 0) }) :=
  ⟨by decide, Or.inl (by decide),
    (syscall_code_and_effects gC7 rsC7 SyscallState.init 73 0 9 100 0
      (by decide)).2.1 (Or.inl (by decide))⟩

/-- Capability with the EXEC permission bit, for the C3 states. -/
def capExec : CheriCap :=
  { base := 0, length := 0x10000, offset := 0, permissions := 8,
    objtype := 0, valid := true, t_alloc := 0 }

/-- Graph for the C3 counterexample: vertex 0 is the pre-branch pcc,
vertex 1 the branch target. -/
def gC3 : PGraph := { vdata := [rootData capExec, rootData capExec], edges := [] }

/-- Register set for the C3 counterexample: register 25 holds the branch
target, register 31 (epcc) and pcc hold the pre-branch pcc vertex. -/
def rsC3 : RegisterSet :=
  { reg_nodes := ((List.replicate 32 (none : Option Nat)).set 25
      (some 1)).set 31 (some 0),
    pcc := some 0 }

/-- A cjr from register 25 at pc 0x100 that took an exception, followed by
the badvaddr read that reports the branch address. -/
def c3_after : Except BuilderError (PGraph × RegisterSet × BranchState) :=
  match scan_cjr gC3 rsC3 BranchState.init 25 0x100 true with
  | Except.error e => Except.error e
  | Except.ok (g, rs, b) => scan_dmfc0 g rs b 0x100 8

/-- C3 counterexample: after the badvaddr read, the register model's pcc
entry still holds the branch-target vertex (1), not the saved pre-branch
pcc vertex (0): scan_dmfc0 rewrites the epcc slot (register 31), never the
pcc entry. -/
theorem dmfc0_pcc_counterexample :
    (match c3_after with
     | Except.ok (_, rs, _) => some rs.pcc
     | Except.error _ => none) = some (some 1) ∧
    (match scan_cjr gC3 rsC3 BranchState.init 25 0x100 true with
     | Except.ok (_, _, b) => b.saved_pcc
     | Except.error _ => none) = some 0 ∧
    (some 1 : Option Nat) ≠ some 0 := by
  refine ⟨?_, ?_, by decide⟩ <;> decide

/-- C3 (amended): on the next badvaddr read whose value is the saved
branch address A or A + 4, scan_dmfc0 rewrites the epcc entry (register
31) with the saved pre-branch pcc vertex and clears the saved address; the
pcc entry itself is not touched (the register set keeps its pcc field). -/
theorem dmfc0_restores_epcc (g : PGraph) (rs : RegisterSet) (b : BranchState)
    (bad A v31 : Nat) (lst : List Nat)
    (hA : b.saved_addr = some A)
    (hbad : bad = A ∨ bad = A + 4)
    (h31 : rs.reg_nodes.getD 31 none = some v31)
    (hlst : b.saved_epcc_out_neighbours = some lst)
    (hdeg : g.out_degree v31 = lst.length) :
    scan_dmfc0 g rs b bad 8 =
      Except.ok (attach_subgraph_merge g (some v31) b.saved_pcc,
        { rs with reg_nodes := rs.reg_nodes.set 31 b.saved_pcc },
        { b with save_first_mfc := false, saved_addr := none }) := by
  unfold scan_dmfc0
  rw [hA]
  dsimp only
  rw [if_pos rfl, if_pos hbad, h31, hlst]
  dsimp only
  rw [if_pos hdeg]
  simp only [set_reg, h31]

/-- Branch state for the C3 witness: branch at 0x100 saved pcc vertex 0
with a target that had no out-neighbours. -/
def bC3 : BranchState :=
  { saved_pcc := some 0, saved_addr := some 0x100, save_first_mfc := false,
    initial_epcc := none, initial_badvaddr := none,
    saved_epcc_out_neighbours := some [] }

theorem getD_set_self {α : Type} (l : List α) (i : Nat) (a d : α)
    (h : i < l.length) : (l.set i a).getD i d = a := by
  rw [List.getD_eq_getElem?_getD, List.getElem?_set_eq_of_lt a h]
  rfl

theorem getD_set_ne {α : Type} (l : List α) (i j : Nat) (a d : α)
    (h : i ≠ j) : (l.set i a).getD j d = l.getD j d := by
  rw [List.getD_eq_getElem?_getD, List.getElem?_set_ne h,
    ← List.getD_eq_getElem?_getD]

theorem foldl_set_length {α : Type} (val : α) (l : List Nat) :
    ∀ acc : List α,
      (l.foldl (fun a v => a.set v val) acc).length = acc.length := by
  induction l with
  | nil => intro acc; rfl
  | cons v rest ih =>
    intro acc
    simp only [List.foldl_cons]
    rw [ih, List.length_set]

theorem getD_foldl_set {α : Type} (val d : α) (l : List Nat) :
    ∀ (acc : List α) (x : Nat), x < acc.length →
      (x ∈ l ∨ acc.getD x d = val) →
      (l.foldl (fun a v => a.set v val) acc).getD x d = val := by
  induction l with
  | nil =>
    intro acc x _ hx
    rcases hx with hx | hx
    · exact absurd hx (List.not_mem_nil x)
    · exact hx
  | cons v rest ih =>
    intro acc x hlen hx
    simp only [List.foldl_cons]
    by_cases hvx : v = x
    · subst hvx
      exact ih _ v (by rwa [List.length_set])
        (Or.inr (getD_set_self _ _ _ _ hlen))
    · rcases hx with hx | hx
      · rcases List.mem_cons.mp hx with h1 | h1
        · exact absurd h1.symm hvx
        · exact ih _ x (by rwa [List.length_set]) (Or.inl h1)
      · exact ih _ x (by rwa [List.length_set])
          (Or.inr (by rwa [getD_set_ne _ _ _ _ _ hvx]))

theorem check_cap_compatible_merge (w_data d x : NodeData) :
    check_cap_compatible (merge_partial_vertex_data w_data d) x =
      check_cap_compatible d x := rfl

theorem merge_roots_loop_ok (sub : PGraph) (l : List Nat) :
    ∀ d : NodeData, (∀ w ∈ l, check_cap_compatible d (sub.data w) = true) →
      merge_roots_loop sub d l = Except.ok
        { d with events := d.events ++
            (l.map (fun w => (sub.data w).events)).flatten } := by
  induction l with
  | nil =>
    intro d _
    simp [merge_roots_loop]
  | cons w rest ih =>
    intro d hall
    have hw := hall w (List.mem_cons_self w rest)
    simp only [merge_roots_loop]
    rw [if_pos hw, ih (merge_partial_vertex_data (sub.data w) d)
      (fun x hx => by
        rw [check_cap_compatible_merge]
        exact hall x (List.mem_cons_of_mem w hx))]
    simp [merge_partial_vertex_data, List.append_assoc]

theorem merge_roots_loop_error (sub : PGraph) (l : List Nat) :
    ∀ d : NodeData,
      (∃ w ∈ l, check_cap_compatible d (sub.data w) = false) →
      merge_roots_loop sub d l = Except.error BuilderError.subgraphMerge := by
  induction l with
  | nil =>
    intro d h
    exact absurd h (by simp)
  | cons w rest ih =>
    intro d h
    simp only [merge_roots_loop]
    by_cases hw : check_cap_compatible d (sub.data w) = true
    · rw [if_pos hw]
      apply ih
      rcases h with ⟨x, hx, hxf⟩
      rcases List.mem_cons.mp hx with h1 | h1
      · subst h1
        rw [hw] at hxf
        cases hxf
      · exact ⟨x, h1, by rw [check_cap_compatible_merge]; exact hxf⟩
    · rw [if_neg hw]

theorem mem_in_neighbours_of_mem_out (g : PGraph) (u w : Nat)
    (h : w ∈ g.out_neighbours u) : u ∈ g.in_neighbours w := by
  simp only [PGraph.out_neighbours, PGraph.in_neighbours, List.mem_map,
    List.mem_filter, beq_iff_eq] at *
  rcases h with ⟨e, ⟨he, h1⟩, h2⟩
  exact ⟨e, ⟨he, by simp [h2]⟩, h1⟩

theorem merge_subgraph_vertex_edge (st : MergeStepState) (w p : Nat)
    (hp : p ∈ st.sub.in_neighbours w) (hge : st.cvm.getD p (-1) ≥ 0) :
    ((st.cvm.getD p (-1)).toNat, st.merged.size) ∈
      (merge_subgraph_vertex st w).merged.edges := by
  unfold merge_subgraph_vertex
  dsimp only
  apply List.mem_append_right
  apply List.mem_filterMap.mpr
  refine ⟨p, hp, ?_⟩
  rw [if_pos hge]
  rfl

theorem merge_after_beginning_edge (stB : MergeStepState) (u w k : Nat)
    (hwin : u ∈ stB.sub.in_neighbours w)
    (hcu : stB.cvm.getD u (-1) = Int.ofNat k) :
    (k, stB.merged.size) ∈ (merge_subgraph_vertex stB w).merged.edges := by
  have h := merge_subgraph_vertex_edge stB w u hwin
    (by rw [hcu]; exact Int.ofNat_nonneg _)
  rw [hcu] at h
  simpa using h

/-- C3 witness: the amended restoration theorem evaluated at a concrete
state. -/
theorem dmfc0_restores_epcc_witness :
    bC3.saved_addr = some 0x100 ∧
    rsC3.reg_nodes.getD 31 none = some 0 ∧
    bC3.saved_epcc_out_neighbours = some [] ∧
    gC3.out_degree 0 = ([] : List Nat).length ∧
    scan_dmfc0 gC3 rsC3 bC3 0x100 8 =
      Except.ok (attach_subgraph_merge gC3 (some 0) bC3.saved_pcc,
        { rsC3 with reg_nodes := rsC3.reg_nodes.set 31 bC3.saved_pcc },
        { bC3 with save_first_mfc := false, saved_addr := none }) :=
  ⟨by decide, by decide, by decide, by decide,
    dmfc0_restores_epcc gC3 rsC3 bC3 0x100 0x100 0 []
      (by decide) (Or.inl (by decide)) (by decide) (by decide) (by decide)⟩

/-- C5: behaviour of the trace-beginning merge on an initial-register
placeholder u of the first window.  With the ROOT and non-ROOT children of
u named by hypotheses: no ROOT child but a non-ROOT child fails with
MissingParent; with at least one ROOT child, a ROOT child disagreeing with
the first on base, length, permissions or object-type fails with
SubgraphMerge, and otherwise exactly one new merged-graph vertex is added
carrying the first ROOT's data with all the ROOTs' event logs concatenated,
every ROOT child is mapped to it and suppressed (omitted), and when u has
non-ROOT children u itself is mapped to the coalesced vertex so that a
subsequent ordinary merge of such a child attaches it below the coalesced
vertex. -/
theorem merge_trace_beginning_spec (st : MergeStepState) (u : Nat)
    (roots other : List Nat)
    (hroots : roots = (st.sub.out_neighbours u).filter
      (fun w => (st.sub.data w).origin == CheriNodeOrigin.ROOT))
    (hother : other = (st.sub.out_neighbours u).filter
      (fun w => (st.sub.data w).origin != CheriNodeOrigin.ROOT)) :
    (roots = [] → other ≠ [] →
      merge_trace_beginning st u = Except.error BuilderError.missingParent) ∧
    (∀ r0 rest, roots = r0 :: rest →
      ((∃ w ∈ rest,
          check_cap_compatible (st.sub.data r0) (st.sub.data w) = false) →
        merge_trace_beginning st u = Except.error BuilderError.subgraphMerge) ∧
      ((∀ w ∈ rest,
          check_cap_compatible (st.sub.data r0) (st.sub.data w) = true) →
        ∃ st', merge_trace_beginning st u = Except.ok st' ∧
          st'.sub = st.sub ∧
          st'.merged.vdata = st.merged.vdata ++
            [{ st.sub.data r0 with
                events := (st.sub.data r0).events ++
                  (rest.map (fun w => (st.sub.data w).events)).flatten }] ∧
          st'.merged.edges = st.merged.edges ∧
          (∀ w, w ∈ r0 :: rest → w < st.cvm.length →
            st'.cvm.getD w (-1) = Int.ofNat st.merged.size) ∧
          (∀ w, w ∈ r0 :: rest → w < st.ovm.length →
            st'.ovm.getD w false = true) ∧
          (other ≠ [] → u < st.cvm.length →
            st'.cvm.getD u (-1) = Int.ofNat st.merged.size ∧
            ∀ w ∈ other, (st.merged.size, st'.merged.size) ∈
              (merge_subgraph_vertex st' w).merged.edges))) := by
  constructor
  · intro h0 hne
    have hfr : (st.sub.out_neighbours u).filter
        (fun w => (st.sub.data w).origin == CheriNodeOrigin.ROOT) = [] := by
      rw [← hroots]; exact h0
    have hfo : ((st.sub.out_neighbours u).filter
        (fun w => (st.sub.data w).origin != CheriNodeOrigin.ROOT)).isEmpty =
        false := by
      rw [← hother]
      simpa [List.isEmpty_iff] using hne
    simp [merge_trace_beginning, hfr, hfo]
  · intro r0 rest hr
    have hfr : (st.sub.out_neighbours u).filter
        (fun w => (st.sub.data w).origin == CheriNodeOrigin.ROOT) =
        r0 :: rest := by
      rw [← hroots]; exact hr
    constructor
    · intro hex
      simp [merge_trace_beginning, hfr,
        merge_roots_loop_error st.sub rest (st.sub.data r0) hex]
    · intro hall
      by_cases hoth : other = []
      · have hfo : ((st.sub.out_neighbours u).filter
            (fun w => (st.sub.data w).origin !=
              CheriNodeOrigin.ROOT)).isEmpty = true := by
          rw [← hother]
          simp [List.isEmpty_iff, hoth]
        simp only [merge_trace_beginning, hfr,
          merge_roots_loop_ok st.sub rest (st.sub.data r0) hall,
          PGraph.add_vertex, hfo, if_true]
        refine ⟨_, rfl, rfl, rfl, rfl, ?_, ?_, ?_⟩
        · intro w hw hlen
          exact getD_foldl_set _ _ (r0 :: rest) st.cvm w hlen (Or.inl hw)
        · intro w hw hlen
          exact getD_foldl_set _ _ (r0 :: rest) st.ovm w hlen (Or.inl hw)
        · intro hne
          exact absurd hoth hne
      · have hfo : ((st.sub.out_neighbours u).filter
            (fun w => (st.sub.data w).origin !=
              CheriNodeOrigin.ROOT)).isEmpty = false := by
          rw [← hother]
          simpa [List.isEmpty_iff] using hoth
        simp only [merge_trace_beginning, hfr,
          merge_roots_loop_ok st.sub rest (st.sub.data r0) hall,
          PGraph.add_vertex, hfo, Bool.false_eq_true, if_false]
        have hlenf : ((r0 :: rest).foldl
            (fun acc v => acc.set v (Int.ofNat st.merged.vdata.length))
            st.cvm).length = st.cvm.length :=
          foldl_set_length _ (r0 :: rest) st.cvm
        refine ⟨_, rfl, rfl, rfl, rfl, ?_, ?_, ?_⟩
        · intro w hw hlen
          by_cases huw : u = w
          · subst huw
            rw [getD_set_self _ _ _ _ (by rwa [hlenf])]
            rfl
          · show ((((r0 :: rest).foldl
                (fun acc v => acc.set v (Int.ofNat st.merged.vdata.length))
                st.cvm).set u (Int.ofNat st.merged.vdata.length)).getD w
                (-1)) = Int.ofNat st.merged.size
            rw [getD_set_ne _ _ _ _ _ huw]
            exact getD_foldl_set _ _ (r0 :: rest) st.cvm w hlen (Or.inl hw)
        · intro w hw hlen
          exact getD_foldl_set _ _ (r0 :: rest) st.ovm w hlen (Or.inl hw)
        · intro _ hulen
          have hgu : (((r0 :: rest).foldl
              (fun acc v => acc.set v (Int.ofNat st.merged.vdata.length))
              st.cvm).set u (Int.ofNat st.merged.vdata.length)).getD u (-1) =
              Int.ofNat st.merged.vdata.length :=
            getD_set_self _ _ _ _ (by rwa [hlenf])
          refine ⟨hgu, ?_⟩
          intro w hw
          have hwin : u ∈ st.sub.in_neighbours w :=
            mem_in_neighbours_of_mem_out st.sub u w
              (List.mem_filter.mp (hother ▸ hw)).1
          exact merge_after_beginning_edge _ u w _ hwin hgu

/-- SETBOUNDS vertex data used by the C5 witness. -/
def setboundsData : NodeData :=
  { cap := capRW, origin := CheriNodeOrigin.SETBOUNDS, pc := 0,
    is_kernel := false, events := [] }

/-- Subgraph for the C5 witness: placeholder vertex 0 with a single
non-ROOT (SETBOUNDS) child and no ROOT child. -/
def subC5 : PGraph :=
  { vdata := [partial_node_data, setboundsData], edges := [(0, 1)] }

/-- Merge-step state for the C5 witness. -/
def stC5 : MergeStepState :=
  { sub := subC5, merged := PGraph.empty, cvm := [-1, -1],
    ovm := [false, false], prev_reg_nodes := [], prev_pcc := none,
    prev_vmap := [] }

theorem setData_size (g : PGraph) (n : Nat) (d : NodeData) :
    (g.setData n d).size = g.size := by
  simp [PGraph.setData, PGraph.size]

theorem add_vertex_size (g : PGraph) (d : NodeData) :
    ((g.add_vertex d).1).size = g.size + 1 := by
  simp [PGraph.add_vertex, PGraph.size]

theorem attach_size (g : PGraph) (rv iv : Option Nat) :
    (attach_subgraph_merge g rv iv).size = g.size := by
  simp [PGraph.size, attach_vdata]

theorem data_setData (g : PGraph) (n : Nat) (d' : NodeData) (v : Nat) :
    (g.setData n d').data v =
      if v = n ∧ n < g.size then d' else g.data v := by
  by_cases h1 : v = n
  · subst h1
    by_cases h2 : v < g.size
    · simp only [h2, and_true, if_pos rfl, true_and, if_true]
      exact data_setData_self g v d' h2
    · simp only [h2, and_false, if_false]
      simp only [PGraph.setData, PGraph.data]
      have hnone : g.vdata[v]? = none := by
        rw [List.getElem?_eq_none]
        exact Nat.le_of_not_lt h2
      rw [List.getD_eq_getElem?_getD, List.getElem?_set_self', hnone,
        List.getD_eq_getElem?_getD, hnone]
      rfl
  · rw [if_neg (fun h => h1 h.1)]
    exact data_setData_ne g n d' v h1

theorem in_neighbours_add_edge (g : PGraph) (a b v : Nat) :
    (g.add_edge a b).in_neighbours v =
      g.in_neighbours v ++ (if b = v then [a] else []) := by
  simp only [PGraph.in_neighbours, PGraph.add_edge, List.filter_append,
    List.map_append]
  congr 1
  by_cases hb : b = v <;> simp [hb]

theorem in_neighbours_add_vertex (g : PGraph) (d : NodeData) (v : Nat) :
    ((g.add_vertex d).1).in_neighbours v = g.in_neighbours v := rfl

theorem in_neighbours_setData (g : PGraph) (n : Nat) (d : NodeData)
    (v : Nat) : (g.setData n d).in_neighbours v = g.in_neighbours v := rfl

/-- All edge endpoints are existing vertices. -/
def edges_closed (g : PGraph) : Prop :=
  ∀ e ∈ g.edges, e.1 < g.size ∧ e.2 < g.size

/-- All register-set entries and the pcc are existing vertices. -/
def regset_closed (g : PGraph) (rs : RegisterSet) : Prop :=
  (∀ i v, rs.reg_nodes.getD i none = some v → v < g.size) ∧
  (∀ v, rs.pcc = some v → v < g.size)

/-- All memory-vertex map entries are existing vertices. -/
def vmap_closed (g : PGraph) (m : VertexMemoryMap) : Prop :=
  ∀ p ∈ m.vertex_map, p.2 < g.size

/-- Every vertex handle reachable from the worker state exists in the
graph. -/
def state_closed (s : ParserState) : Prop :=
  edges_closed s.pgm ∧ regset_closed s.pgm s.regset ∧
  vmap_closed s.pgm s.vertex_map

instance (g : PGraph) : Decidable (edges_closed g) :=
  inferInstanceAs (Decidable (∀ e ∈ g.edges, e.1 < g.size ∧ e.2 < g.size))

instance (g : PGraph) : Decidable (edges_contained g) :=
  inferInstanceAs (Decidable (∀ e ∈ g.edges,
    (g.data e.1).origin ≠ CheriNodeOrigin.PARTIAL →
    cap_contained (g.data e.2).cap (g.data e.1).cap))

instance (g : PGraph) (m : VertexMemoryMap) : Decidable (vmap_closed g m) :=
  inferInstanceAs (Decidable (∀ p ∈ m.vertex_map, p.2 < g.size))

theorem in_neighbours_nil_of_ge (g : PGraph) (v : Nat)
    (hc : edges_closed g) (hv : g.size ≤ v) : g.in_neighbours v = [] := by
  simp only [PGraph.in_neighbours, List.map_eq_nil_iff,
    List.filter_eq_nil_iff]
  intro e he
  have := (hc e he).2
  simp only [beq_iff_eq]
  omega

theorem edges_contained_of_eqs (g g' : PGraph) (hE : g'.edges = g.edges)
    (hch : ∀ v, (g'.data v).cap = (g.data v).cap ∧
      (g'.data v).origin = (g.data v).origin)
    (h : edges_contained g) : edges_contained g' := by
  intro e he hsrc
  rw [(hch e.2).1, (hch e.1).1]
  exact h e (hE ▸ he) (by rw [← (hch e.1).2]; exact hsrc)

theorem edges_contained_add_edge (g : PGraph) (a b : Nat)
    (h : edges_contained g)
    (hnew : (g.data a).origin ≠ CheriNodeOrigin.PARTIAL →
      cap_contained (g.data b).cap (g.data a).cap) :
    edges_contained (g.add_edge a b) := by
  intro e he hsrc
  rcases List.mem_append.mp he with h1 | h1
  · exact h e h1 hsrc
  · have he2 : e = (a, b) := by simpa using h1
    subst he2
    exact hnew hsrc

theorem edges_contained_add_vertex (g : PGraph) (d : NodeData)
    (hc : edges_closed g) (h : edges_contained g) :
    edges_contained (g.add_vertex d).1 := by
  intro e he hsrc
  have he' : e ∈ g.edges := he
  obtain ⟨h1, h2⟩ := hc e he'
  rw [data_add_vertex_lt g d e.2 h2, data_add_vertex_lt g d e.1 h1]
  exact h e he' (by rwa [data_add_vertex_lt g d e.1 h1] at hsrc)

theorem edges_contained_attach (g : PGraph) (rv iv : Option Nat)
    (h : edges_contained g) :
    edges_contained (attach_subgraph_merge g rv iv) := by
  unfold attach_subgraph_merge
  cases iv with
  | none => cases rv <;> exact h
  | some i =>
    cases rv with
    | none => exact h
    | some r =>
      dsimp only
      split
      · split
        · exact h
        · split
          · rename_i hpart
            intro e he hsrc
            rcases List.mem_append.mp he with h1 | h1
            · exact h e h1 hsrc
            · have he2 : e = (r, i) := by simpa using h1
              subst he2
              exact absurd hpart hsrc
          · exact h
      · exact h

theorem edges_contained_setData_events (g : PGraph) (n : Nat)
    (d' : NodeData) (hcap : d'.cap = (g.data n).cap)
    (horig : d'.origin = (g.data n).origin)
    (h : edges_contained g) : edges_contained (g.setData n d') := by
  refine edges_contained_of_eqs g (g.setData n d') rfl ?_ h
  intro v
  rw [data_setData]
  split
  · rename_i hv
    obtain ⟨hv1, _⟩ := hv
    subst hv1
    exact ⟨hcap, horig⟩
  · exact ⟨rfl, rfl⟩

theorem edges_closed_add_vertex (g : PGraph) (d : NodeData)
    (h : edges_closed g) : edges_closed (g.add_vertex d).1 := by
  intro e he
  have := h e he
  rw [add_vertex_size]
  omega

theorem edges_closed_add_edge (g : PGraph) (a b : Nat) (ha : a < g.size)
    (hb : b < g.size) (h : edges_closed g) :
    edges_closed (g.add_edge a b) := by
  intro e he
  rcases List.mem_append.mp he with h1 | h1
  · exact h e h1
  · have he2 : e = (a, b) := by simpa using h1
    subst he2
    exact ⟨ha, hb⟩

theorem edges_closed_setData (g : PGraph) (n : Nat) (d : NodeData)
    (h : edges_closed g) : edges_closed (g.setData n d) := by
  intro e he
  rw [setData_size]
  exact h e he

theorem edges_closed_attach (g : PGraph) (rv iv : Option Nat)
    (hrv : ∀ r, rv = some r → r < g.size)
    (hiv : ∀ i, iv = some i → i < g.size)
    (h : edges_closed g) :
    edges_closed (attach_subgraph_merge g rv iv) := by
  unfold attach_subgraph_merge
  cases iv with
  | none => cases rv <;> exact h
  | some i =>
    cases rv with
    | none => exact h
    | some r =>
      dsimp only
      split
      · split
        · exact h
        · split
          · intro e he
            show e.1 < g.size ∧ e.2 < g.size
            rcases List.mem_append.mp he with h1 | h1
            · exact h e h1
            · have he2 : e = (r, i) := by simpa using h1
              subst he2
              exact ⟨hrv r rfl, hiv i rfl⟩
          · exact h
      · exact h

/-- C1 (amended): the derivation handler performs no containment check:
the derived vertex's capability is whatever the trace reports, so
every edge whose source is not a PARTIAL placeholder satisfies
containment exactly when the trace-reported derived capability is
contained in the parent vertex's capability.  Formally: containment of
all non-PARTIAL-source edges is preserved by every graph mutation of the
builder — make_node under the hypothesis that the new capability is
contained in the (non-PARTIAL) parent's, and register/pcc assignment
(whose attached placeholder edges have a PARTIAL source) and ROOT creation
unconditionally. -/
theorem edge_containment_preservation :
    (∀ (g : PGraph) (rs : RegisterSet) (src : Nat) (d : NodeData)
      (g' : PGraph) (vertex : Nat),
      edges_closed g → edges_contained g →
      (∀ p, rs.reg_nodes.getD src none = some p → p < g.size) →
      (∀ p, rs.reg_nodes.getD src none = some p →
        (g.data p).origin ≠ CheriNodeOrigin.PARTIAL →
        cap_contained d.cap (g.data p).cap) →
      make_node g rs src d = Except.ok (g', vertex) →
      edges_contained g' ∧ edges_closed g') ∧
    (∀ (g : PGraph) (rs : RegisterSet) (idx : Nat) (val : Option Nat),
      edges_contained g → edges_contained (set_reg g rs idx val).1) ∧
    (∀ (g : PGraph) (rs : RegisterSet) (val : Option Nat),
      edges_contained g → edges_contained (set_pcc g rs val).1) ∧
    (∀ (g : PGraph) (cap : CheriCap) (cycle pc : Nat) (k : Bool),
      edges_closed g → edges_contained g →
      edges_contained (make_root_node g cap cycle pc k).1 ∧
      edges_closed (make_root_node g cap cycle pc k).1) := by
  refine ⟨?_, ?_, ?_, ?_⟩
  · intro g rs src d g' vertex hcl hco hplt hnarrow hok
    by_cases hhas : has_reg g rs src false = true
    · cases hp : rs.reg_nodes.getD src none with
      | none =>
        unfold make_node at hok
        rw [if_pos hhas, hp] at hok
        cases hok
      | some parent =>
        have hshape : make_node g rs src d = Except.ok
            ((g.add_vertex d).1.add_edge parent (g.add_vertex d).2,
              (g.add_vertex d).2) := by
          unfold make_node
          rw [if_pos hhas, hp]
        rw [hshape] at hok
        injection hok with hok1
        injection hok1 with hokg hokv
        subst hokg
        subst hokv
        have hpl : parent < g.size := hplt parent hp
        have hd : (g.add_vertex d).1.data (g.add_vertex d).2 = d :=
          data_add_vertex_self g d
        constructor
        · apply edges_contained_add_edge
          · exact edges_contained_add_vertex g d hcl hco
          · intro hsrc
            rw [data_add_vertex_lt g d parent hpl] at hsrc ⊢
            rw [hd]
            exact hnarrow parent hp hsrc
        · apply edges_closed_add_edge
          · rw [add_vertex_size]
            omega
          · rw [add_vertex_size]
            exact Nat.lt_succ_self g.size
          · exact edges_closed_add_vertex g d hcl
    · unfold make_node at hok
      rw [if_neg hhas] at hok
      cases hok
  · intro g rs idx val hco
    exact edges_contained_attach g _ val hco
  · intro g rs val hco
    exact edges_contained_attach g _ val hco
  · intro g cap cycle pc k hcl hco
    exact ⟨edges_contained_add_vertex g _ hcl hco,
      edges_closed_add_vertex g _ hcl⟩

/-- Every ROOT vertex has at most one in-neighbour, and that in-neighbour,
when present, has origin PARTIAL. -/
def root_in_inv (g : PGraph) : Prop :=
  ∀ v, (g.data v).origin = CheriNodeOrigin.ROOT →
    g.in_neighbours v = [] ∨
    ∃ p, g.in_neighbours v = [p] ∧
      (g.data p).origin = CheriNodeOrigin.PARTIAL

/-- The invariant a worker state maintains: all vertex handles in its
components exist, and ROOT vertices hang off at most one PARTIAL
placeholder. -/
def worker_inv (s : ParserState) : Prop :=
  state_closed s ∧ root_in_inv s.pgm

theorem attach_none (g : PGraph) (rv : Option Nat) :
    attach_subgraph_merge g rv none = g := by
  cases rv <;> rfl

theorem getD_set_total {α : Type} (l : List α) (i j : Nat) (a d : α) :
    (l.set i a).getD j d = if j = i ∧ i < l.length then a else l.getD j d := by
  by_cases h1 : j = i
  · subst h1
    by_cases h2 : j < l.length
    · simp only [h2, and_true, if_pos rfl, true_and, if_true]
      exact getD_set_self l j a d h2
    · simp only [h2, and_false, if_false]
      have hnone : l[j]? = none := by
        rw [List.getElem?_eq_none]
        exact Nat.le_of_not_lt h2
      rw [List.getD_eq_getElem?_getD, List.getElem?_set_self', hnone,
        List.getD_eq_getElem?_getD, hnone]
      rfl
  · rw [if_neg (fun h => h1 h.1)]
    exact getD_set_ne l i j a d (fun h => h1 h.symm)

theorem in_neighbour_lt (g : PGraph) (v p : Nat) (hc : edges_closed g)
    (hp : p ∈ g.in_neighbours v) : p < g.size := by
  simp only [PGraph.in_neighbours, List.mem_map, List.mem_filter] at hp
  rcases hp with ⟨e, ⟨he, _⟩, h2⟩
  exact h2 ▸ (hc e he).1

theorem root_in_inv_of_eqs (g g' : PGraph) (hE : g'.edges = g.edges)
    (horig : ∀ v, (g'.data v).origin = (g.data v).origin)
    (h : root_in_inv g) : root_in_inv g' := by
  intro v hv
  have hin : g'.in_neighbours v = g.in_neighbours v := by
    simp [PGraph.in_neighbours, hE]
  rw [hin]
  rcases h v (by rw [← horig v]; exact hv) with h1 | ⟨p, h1, h2⟩
  · left
    exact h1
  · right
    exact ⟨p, h1, by rw [horig p]; exact h2⟩

theorem root_in_inv_add_vertex (g : PGraph) (d : NodeData)
    (hc : edges_closed g) (h : root_in_inv g) :
    root_in_inv (g.add_vertex d).1 := by
  intro v hv
  rw [in_neighbours_add_vertex]
  by_cases hlt : v < g.size
  · rw [data_add_vertex_lt g d v hlt] at hv
    rcases h v hv with h1 | ⟨p, hp1, hp2⟩
    · left
      exact h1
    · right
      refine ⟨p, hp1, ?_⟩
      have hplt : p < g.size := in_neighbour_lt g v p hc
        (by rw [hp1]; exact List.mem_singleton_self p)
      rw [data_add_vertex_lt g d p hplt]
      exact hp2
  · left
    exact in_neighbours_nil_of_ge g v hc (Nat.le_of_not_lt hlt)

theorem root_in_inv_add_edge_nonroot (g : PGraph) (a b : Nat)
    (h : root_in_inv g) (hb : (g.data b).origin ≠ CheriNodeOrigin.ROOT) :
    root_in_inv (g.add_edge a b) := by
  intro v hv
  rw [in_neighbours_add_edge]
  by_cases hbv : b = v
  · subst hbv
    exact absurd hv hb
  · rw [if_neg hbv, List.append_nil]
    exact h v hv

theorem root_in_inv_attach (g : PGraph) (rv iv : Option Nat)
    (h : root_in_inv g) : root_in_inv (attach_subgraph_merge g rv iv) := by
  unfold attach_subgraph_merge
  cases iv with
  | none => cases rv <;> exact h
  | some i =>
    cases rv with
    | none => exact h
    | some r =>
      dsimp only
      split
      · rename_i hroot
        split
        · exact h
        · rename_i hany
          split
          · rename_i hpart
            intro v hv
            rw [in_neighbours_add_edge]
            by_cases hiv : i = v
            · subst hiv
              have hnil : g.in_neighbours i = [] := by
                rcases h i hroot with h1 | ⟨p, hp1, hp2⟩
                · exact h1
                · exfalso
                  apply hany
                  rw [hp1]
                  simp [hp2]
              rw [hnil]
              right
              refine ⟨r, ?_, hpart⟩
              simp
            · rw [if_neg hiv, List.append_nil]
              exact h v hv
          · exact h
      · exact h

theorem root_in_inv_set_reg (g : PGraph) (rs : RegisterSet) (idx : Nat)
    (val : Option Nat) (h : root_in_inv g) :
    root_in_inv (set_reg g rs idx val).1 :=
  root_in_inv_attach g (rs.reg_nodes.getD idx none) val h

theorem regset_closed_set (g : PGraph) (rs : RegisterSet) (idx : Nat)
    (val : Option Nat) (hval : ∀ v, val = some v → v < g.size)
    (h : regset_closed g rs) :
    regset_closed g { rs with reg_nodes := rs.reg_nodes.set idx val } := by
  constructor
  · intro i v hi
    rw [getD_set_total] at hi
    split at hi
    · exact hval v hi
    · exact h.1 i v hi
  · intro v hp
    exact h.2 v hp

theorem regset_closed_set_pcc (g : PGraph) (rs : RegisterSet)
    (val : Option Nat) (hval : ∀ v, val = some v → v < g.size)
    (h : regset_closed g rs) : regset_closed g { rs with pcc := val } := by
  exact ⟨h.1, fun v hp => hval v hp⟩

theorem regset_closed_mono (g g' : PGraph) (rs : RegisterSet)
    (hsz : g.size ≤ g'.size) (h : regset_closed g rs) :
    regset_closed g' rs :=
  ⟨fun i v hi => Nat.lt_of_lt_of_le (h.1 i v hi) hsz,
   fun v hp => Nat.lt_of_lt_of_le (h.2 v hp) hsz⟩

theorem vmap_closed_mono (g g' : PGraph) (m : VertexMemoryMap)
    (hsz : g.size ≤ g'.size) (h : vmap_closed g m) : vmap_closed g' m :=
  fun p hp => Nat.lt_of_lt_of_le (h p hp) hsz

theorem vmap_closed_store (g : PGraph) (m : VertexMemoryMap) (addr n : Nat)
    (hn : n < g.size) (h : vmap_closed g m) :
    vmap_closed g (m.mem_store addr n) := by
  intro p hp
  rcases List.mem_cons.mp hp with h1 | h1
  · rw [h1]
    exact hn
  · exact h p (List.mem_of_mem_filter h1)

theorem vmap_closed_clear (g : PGraph) (m : VertexMemoryMap) (addr : Nat)
    (h : vmap_closed g m) : vmap_closed g (m.clear addr) :=
  fun p hp => h p (List.mem_of_mem_filter hp)

theorem vm_get_closed (g : PGraph) (m : VertexMemoryMap) (a n : Nat)
    (h : vmap_closed g m) (hg : m.get a = some n) : n < g.size := by
  unfold VertexMemoryMap.get at hg
  cases hf : m.vertex_map.find? (fun p => p.1 == a) with
  | none => rw [hf] at hg; cases hg
  | some p =>
    rw [hf] at hg
    injection hg with hg1
    exact hg1 ▸ h p (List.mem_of_find?_eq_some hf)

theorem edges_closed_mono (g g' : PGraph) (hE : g'.edges = g.edges)
    (hsz : g.size ≤ g'.size) (h : edges_closed g) : edges_closed g' := by
  intro e he
  have := h e (hE ▸ he)
  omega

theorem data_of_ge (g : PGraph) (v : Nat) (hv : g.size ≤ v) :
    g.data v = NodeData.null := by
  simp only [PGraph.data]
  rw [List.getD_eq_getElem?_getD, List.getElem?_eq_none hv]
  rfl

theorem setData_origin_eq (g : PGraph) (n : Nat) (d' : NodeData)
    (horig : d'.origin = (g.data n).origin) (v : Nat) :
    ((g.setData n d').data v).origin = (g.data v).origin := by
  rw [data_setData]
  split
  · rename_i hh
    obtain ⟨h1, _⟩ := hh
    subst h1
    exact horig
  · rfl

theorem partial_only_of_eqs (g g' : PGraph) (regs : List Nat) (pcc : Nat)
    (horig : ∀ v, (g'.data v).origin = (g.data v).origin)
    (h : partial_only_initial g regs pcc) :
    partial_only_initial g' regs pcc := by
  intro v hv
  exact h v (by rw [← horig v]; exact hv)

theorem partial_only_add_vertex (g : PGraph) (d : NodeData)
    (regs : List Nat) (pcc : Nat) (hd : d.origin ≠ CheriNodeOrigin.PARTIAL)
    (h : partial_only_initial g regs pcc) :
    partial_only_initial (g.add_vertex d).1 regs pcc := by
  intro v hv
  by_cases hlt : v < g.size
  · exact h v (by rwa [data_add_vertex_lt g d v hlt] at hv)
  · by_cases heq : v = g.size
    · subst heq
      rw [data_add_vertex_self] at hv
      exact absurd hv hd
    · have hge : ((g.add_vertex d).1).size ≤ v := by
        rw [add_vertex_size]
        omega
      rw [data_of_ge _ v hge] at hv
      exact absurd hv (by decide)

/-- scan_csc in the known-register branch. -/
theorem scan_csc_known_eq (s : ParserState) (e : CscRecord)
    (hv : e.value.valid = true)
    (hr : has_reg s.pgm s.regset e.cd true = true) :
    scan_csc s e =
      { pgm := s.pgm.setData ((s.regset.reg_nodes.getD e.cd none).getD 0)
          ((s.pgm.data ((s.regset.reg_nodes.getD e.cd none).getD 0)
            ).add_mem_store e.cycles e.memory_address),
        regset := s.regset,
        vertex_map := s.vertex_map.mem_store e.memory_address
          ((s.regset.reg_nodes.getD e.cd none).getD 0) } := by
  unfold scan_csc
  rw [if_pos hv, if_neg (by simp [hr])]

/-- scan_csc in the unknown-register branch. -/
theorem scan_csc_unknown_eq (s : ParserState) (e : CscRecord)
    (hv : e.value.valid = true)
    (hr : has_reg s.pgm s.regset e.cd true = false) :
    scan_csc s e =
      { pgm := (set_reg (make_root_node s.pgm e.value e.cycles e.pc
            e.is_kernel).1 s.regset e.cd (some s.pgm.size)).1.setData
            s.pgm.size
            (((set_reg (make_root_node s.pgm e.value e.cycles e.pc
              e.is_kernel).1 s.regset e.cd (some s.pgm.size)).1.data
              s.pgm.size).add_mem_store e.cycles e.memory_address),
        regset := (set_reg (make_root_node s.pgm e.value e.cycles e.pc
            e.is_kernel).1 s.regset e.cd (some s.pgm.size)).2,
        vertex_map := s.vertex_map.mem_store e.memory_address
          s.pgm.size } := by
  unfold scan_csc
  rw [if_pos hv, if_pos hr]
  rfl

/-- scan_clc in the invalid-capability branch. -/
theorem scan_clc_invalid_eq (s : ParserState) (e : ClcRecord)
    (hv : e.value.valid = false) :
    scan_clc s e =
      { pgm := (set_reg s.pgm s.regset e.cd none).1,
        regset := (set_reg s.pgm s.regset e.cd none).2,
        vertex_map :=
          match s.vertex_map.get e.memory_address with
          | some _ => s.vertex_map.clear e.memory_address
          | none => s.vertex_map } := by
  unfold scan_clc
  rw [if_pos hv]
  rfl

/-- scan_clc in the committed-load branch where the map already holds a
vertex. -/
theorem scan_clc_known_eq (s : ParserState) (e : ClcRecord) (n : Nat)
    (hv : e.value.valid = true)
    (hcommit : ¬(e.old_cd = e.curr_cd ∧ has_exception e.exception = true))
    (hn : s.vertex_map.get e.memory_address = some n) :
    scan_clc s e =
      { pgm := (set_reg (s.pgm.setData n ((s.pgm.data n).add_mem_load
            e.cycles e.memory_address)) s.regset e.cd (some n)).1,
        regset := (set_reg (s.pgm.setData n ((s.pgm.data n).add_mem_load
            e.cycles e.memory_address)) s.regset e.cd (some n)).2,
        vertex_map := s.vertex_map } := by
  unfold scan_clc
  rw [if_neg (by simp [hv]), if_neg hcommit]
  have hn2 : (s.vertex_map.mem_load e.memory_address none).2 = some n := hn
  rw [hn2]

/-- scan_clc in the committed-load branch where a fresh ROOT is
created. -/
theorem scan_clc_new_eq (s : ParserState) (e : ClcRecord)
    (hv : e.value.valid = true)
    (hcommit : ¬(e.old_cd = e.curr_cd ∧ has_exception e.exception = true))
    (hn : s.vertex_map.get e.memory_address = none) :
    scan_clc s e =
      { pgm := (set_reg ((make_root_node s.pgm e.value e.cycles e.pc
            e.is_kernel).1.setData s.pgm.size
            (((make_root_node s.pgm e.value e.cycles e.pc
              e.is_kernel).1.data s.pgm.size).add_mem_load e.cycles
              e.memory_address)) s.regset e.cd (some s.pgm.size)).1,
        regset := (set_reg ((make_root_node s.pgm e.value e.cycles e.pc
            e.is_kernel).1.setData s.pgm.size
            (((make_root_node s.pgm e.value e.cycles e.pc
              e.is_kernel).1.data s.pgm.size).add_mem_load e.cycles
              e.memory_address)) s.regset e.cd (some s.pgm.size)).2,
        vertex_map := s.vertex_map.mem_store e.memory_address
          s.pgm.size } := by
  unfold scan_clc
  rw [if_neg (by simp [hv]), if_neg hcommit]
  have hn2 : (s.vertex_map.mem_load e.memory_address none).2 = none := hn
  rw [hn2]
  rfl

theorem add_edge_size (g : PGraph) (a b : Nat) :
    (g.add_edge a b).size = g.size := rfl

theorem add_vertex_snd (g : PGraph) (d : NodeData) :
    (g.add_vertex d).2 = g.size := rfl

theorem set_reg_size (g : PGraph) (rs : RegisterSet) (idx : Nat)
    (val : Option Nat) : (set_reg g rs idx val).1.size = g.size :=
  attach_size ..

theorem set_pcc_size (g : PGraph) (rs : RegisterSet) (val : Option Nat) :
    (set_pcc g rs val).1.size = g.size :=
  attach_size ..

theorem set_reg_data (g : PGraph) (rs : RegisterSet) (idx : Nat)
    (val : Option Nat) (v : Nat) :
    (set_reg g rs idx val).1.data v = g.data v :=
  attach_data ..

theorem make_root_node_snd (g : PGraph) (cap : CheriCap) (cycles pc : Nat)
    (k : Bool) : (make_root_node g cap cycles pc k).2 = g.size := rfl

theorem make_root_node_size (g : PGraph) (cap : CheriCap) (cycles pc : Nat)
    (k : Bool) : (make_root_node g cap cycles pc k).1.size = g.size + 1 :=
  add_vertex_size ..

theorem set_reg_fst (g : PGraph) (rs : RegisterSet) (idx : Nat)
    (val : Option Nat) : (set_reg g rs idx val).1 =
      attach_subgraph_merge g (rs.reg_nodes.getD idx none) val := rfl

theorem set_reg_snd (g : PGraph) (rs : RegisterSet) (idx : Nat)
    (val : Option Nat) : (set_reg g rs idx val).2 =
      { rs with reg_nodes := rs.reg_nodes.set idx val } := rfl

theorem set_pcc_fst (g : PGraph) (rs : RegisterSet) (val : Option Nat) :
    (set_pcc g rs val).1 = attach_subgraph_merge g rs.pcc val := rfl

theorem set_pcc_data (g : PGraph) (rs : RegisterSet) (val : Option Nat)
    (v : Nat) : (set_pcc g rs val).1.data v = g.data v :=
  attach_data ..

theorem make_node_ok_shape (g : PGraph) (rs : RegisterSet) (src : Nat)
    (d : NodeData) (parent : Nat) (hhas : has_reg g rs src false = true)
    (hp : rs.reg_nodes.getD src none = some parent) :
    make_node g rs src d = Except.ok
      ((g.add_vertex d).1.add_edge parent (g.add_vertex d).2,
        (g.add_vertex d).2) := by
  unfold make_node
  rw [if_pos hhas, hp]

/-- scan_clc when the load did not commit (needed by the invariant
proofs). -/
theorem scan_clc_skip_eq (s : ParserState) (e : ClcRecord)
    (hv : e.value.valid = true) (heq : e.old_cd = e.curr_cd)
    (hexc : e.exception ≠ 31) : scan_clc s e = s := by
  unfold scan_clc
  rw [if_neg (by simp [hv]), if_pos ⟨heq, by simp [has_exception, hexc]⟩]

/-- The full invariant of a worker state: closure of all vertex handles,
the ROOT in-neighbour property, and PARTIAL vertices confined to the 33
initial placeholders. -/
def worker_inv_full (s : ParserState) : Prop :=
  state_closed s ∧ root_in_inv s.pgm ∧
  partial_only_initial s.pgm (List.range 32) 32

/-- One worker primitive preserves the full worker invariant. -/
theorem apply_worker_op_preserves (s : ParserState) (op : WorkerOp)
    (s' : ParserState) (hok : apply_worker_op s op = Except.ok s')
    (h : worker_inv_full s) : worker_inv_full s' := by
  obtain ⟨⟨hec, hrc, hvc⟩, hri, hpo⟩ := h
  have hderive : ∀ (src dst : Nat) (cap : CheriCap) (pc : Nat) (k : Bool)
      (origin : CheriNodeOrigin),
      origin ≠ CheriNodeOrigin.ROOT → origin ≠ CheriNodeOrigin.PARTIAL →
      derive_scan s src dst cap pc k origin = Except.ok s' →
      worker_inv_full s' := by
    intro src dst cap pc k origin ho1 ho2 hds
    unfold derive_scan at hds
    by_cases hhas : has_reg s.pgm s.regset src false = true
    · cases hp : s.regset.reg_nodes.getD src none with
      | none =>
        unfold make_node at hds
        rw [if_pos hhas, hp] at hds
        cases hds
      | some parent =>
        rw [make_node_ok_shape s.pgm s.regset src _ parent hhas hp] at hds
        dsimp only at hds
        injection hds with hds1
        subst hds1
        have hpl : parent < s.pgm.size := hrc.1 src parent hp
        set d : NodeData := { cap := cap, origin := origin, pc := pc, is_kernel := k, events := [] } with hd
        have hdorig : ((s.pgm.add_vertex d).1.data
            (s.pgm.add_vertex d).2).origin = origin :=
          congrArg NodeData.origin (data_add_vertex_self s.pgm d)
        have hg1ec : edges_closed ((s.pgm.add_vertex d).1.add_edge parent
            (s.pgm.add_vertex d).2) := by
          apply edges_closed_add_edge
          · rw [add_vertex_size]; omega
          · rw [add_vertex_size]; exact Nat.lt_succ_self s.pgm.size
          · exact edges_closed_add_vertex s.pgm d hec
        have hg1ri : root_in_inv ((s.pgm.add_vertex d).1.add_edge parent
            (s.pgm.add_vertex d).2) := by
          apply root_in_inv_add_edge_nonroot
          · exact root_in_inv_add_vertex s.pgm d hec hri
          · rw [hdorig]; exact ho1
        have hg1po : partial_only_initial ((s.pgm.add_vertex d).1.add_edge
            parent (s.pgm.add_vertex d).2) (List.range 32) 32 := by
          apply partial_only_of_eqs (s.pgm.add_vertex d).1
          · intro v; rfl
          · exact partial_only_add_vertex s.pgm d _ _ ho2 hpo
        have hg1sz : ((s.pgm.add_vertex d).1.add_edge parent
            (s.pgm.add_vertex d).2).size = s.pgm.size + 1 := by
          rw [add_edge_size, add_vertex_size]
        refine ⟨⟨?_, ?_, ?_⟩, ?_, ?_⟩
        · apply edges_closed_attach
          · intro r hr
            rw [hg1sz]
            have := hrc.1 dst r hr
            omega
          · intro i hi
            injection hi with hi1
            rw [← hi1, hg1sz, add_vertex_snd]
            exact Nat.lt_succ_self s.pgm.size
          · exact hg1ec
        · apply regset_closed_set
          · intro v hv
            injection hv with hv1
            rw [← hv1, set_reg_size, hg1sz, add_vertex_snd]
            exact Nat.lt_succ_self s.pgm.size
          · apply regset_closed_mono s.pgm
            · rw [set_reg_size, hg1sz]
              omega
            · exact hrc
        · apply vmap_closed_mono s.pgm
          · rw [set_reg_size, hg1sz]
            omega
          · exact hvc
        · exact root_in_inv_attach _ _ _ hg1ri
        · apply partial_only_of_eqs ((s.pgm.add_vertex d).1.add_edge parent
            (s.pgm.add_vertex d).2)
          · intro v
            rw [set_reg_data]
          · exact hg1po
    · unfold make_node at hds
      rw [if_neg hhas] at hds
      cases hds
  cases op with
  | mkRoot cap cycles pc k =>
    simp only [apply_worker_op] at hok
    injection hok with hok1
    subst hok1
    refine ⟨⟨?_, ?_, ?_⟩, ?_, ?_⟩
    · exact edges_closed_add_vertex s.pgm _ hec
    · exact regset_closed_mono s.pgm _ _
        (by show s.pgm.size ≤ (make_root_node s.pgm cap cycles pc k).1.size
            rw [make_root_node_size]
            omega) hrc
    · exact vmap_closed_mono s.pgm _ _
        (by show s.pgm.size ≤ (make_root_node s.pgm cap cycles pc k).1.size
            rw [make_root_node_size]
            omega) hvc
    · exact root_in_inv_add_vertex s.pgm _ hec hri
    · exact partial_only_add_vertex s.pgm _ _ _ (fun h => nomatch h) hpo
  | csetbounds src dst cap pc k =>
    exact hderive src dst cap pc k CheriNodeOrigin.SETBOUNDS
      (by decide) (by decide) hok
  | cfromptr src dst cap pc k =>
    exact hderive src dst cap pc k CheriNodeOrigin.FROMPTR
      (by decide) (by decide) hok
  | candperm src dst cap pc k =>
    exact hderive src dst cap pc k CheriNodeOrigin.ANDPERM
      (by decide) (by decide) hok
  | setRegOp idx val =>
    cases val with
    | some v =>
      simp only [apply_worker_op] at hok
      split at hok
      · rename_i hlt
        injection hok with hok1
        subst hok1
        refine ⟨⟨?_, ?_, ?_⟩, ?_, ?_⟩
        · apply edges_closed_attach
          · intro r hr
            exact hrc.1 idx r hr
          · intro i hi
            injection hi with hi1
            omega
          · exact hec
        · apply regset_closed_set
          · intro w hw
            injection hw with hw1
            rw [set_reg_size]
            omega
          · exact regset_closed_mono s.pgm _ _ (by rw [set_reg_size]) hrc
        · exact vmap_closed_mono s.pgm _ _ (by rw [set_reg_size]) hvc
        · exact root_in_inv_attach _ _ _ hri
        · exact partial_only_of_eqs s.pgm _ _ _
            (fun v => by rw [set_reg_data]) hpo
      · cases hok
    | none =>
      simp only [apply_worker_op] at hok
      injection hok with hok1
      subst hok1
      refine ⟨⟨?_, ?_, ?_⟩, ?_, ?_⟩
      · rw [set_reg_fst, attach_none]
        exact hec
      · rw [set_reg_fst, attach_none, set_reg_snd]
        apply regset_closed_set
        · intro w hw
          cases hw
        · exact hrc
      · rw [set_reg_fst, attach_none]
        exact hvc
      · rw [set_reg_fst, attach_none]
        exact hri
      · rw [set_reg_fst, attach_none]
        exact hpo
  | setPccOp val =>
    cases val with
    | some v =>
      simp only [apply_worker_op] at hok
      split at hok
      · rename_i hlt
        injection hok with hok1
        subst hok1
        refine ⟨⟨?_, ?_, ?_⟩, ?_, ?_⟩
        · apply edges_closed_attach
          · intro r hr
            exact hrc.2 r hr
          · intro i hi
            injection hi with hi1
            omega
          · exact hec
        · refine ⟨?_, ?_⟩
          · intro i w hw
            rw [set_pcc_size]
            exact hrc.1 i w hw
          · intro w hw
            injection hw with hw1
            rw [set_pcc_size]
            omega
        · exact vmap_closed_mono s.pgm _ _ (by rw [set_pcc_size]) hvc
        · exact root_in_inv_attach _ _ _ hri
        · exact partial_only_of_eqs s.pgm _ _ _
            (fun v => by rw [set_pcc_data]) hpo
      · cases hok
    | none =>
      simp only [apply_worker_op] at hok
      injection hok with hok1
      subst hok1
      refine ⟨⟨?_, ?_, ?_⟩, ?_, ?_⟩
      · rw [set_pcc_fst, attach_none]
        exact hec
      · refine ⟨?_, ?_⟩
        · intro i w hw
          rw [set_pcc_fst, attach_none]
          exact hrc.1 i w hw
        · intro w hw
          cases hw
      · rw [set_pcc_fst, attach_none]
        exact hvc
      · rw [set_pcc_fst, attach_none]
        exact hri
      · rw [set_pcc_fst, attach_none]
        exact hpo
  | clcOp e =>
    simp only [apply_worker_op] at hok
    injection hok with hok1
    subst hok1
    by_cases hv : e.value.valid = false
    · rw [scan_clc_invalid_eq s e hv]
      refine ⟨⟨?_, ?_, ?_⟩, ?_, ?_⟩
      · rw [set_reg_fst, attach_none]
        exact hec
      · rw [set_reg_fst, attach_none, set_reg_snd]
        apply regset_closed_set
        · intro w hw
          cases hw
        · exact hrc
      · rw [set_reg_fst, attach_none]
        cases hget : s.vertex_map.get e.memory_address with
        | some n => exact vmap_closed_clear s.pgm _ _ hvc
        | none => exact hvc
      · rw [set_reg_fst, attach_none]
        exact hri
      · rw [set_reg_fst, attach_none]
        exact hpo
    · have hvt : e.value.valid = true := by
        cases hvv : e.value.valid
        · exact absurd hvv hv
        · rfl
      by_cases hcommit : e.old_cd = e.curr_cd ∧
          has_exception e.exception = true
      · rw [scan_clc_skip_eq s e hvt hcommit.1
          (by simpa [has_exception] using hcommit.2)]
        exact ⟨⟨hec, hrc, hvc⟩, hri, hpo⟩
      · cases hget : s.vertex_map.get e.memory_address with
        | some n =>
          rw [scan_clc_known_eq s e n hvt hcommit hget]
          have hn : n < s.pgm.size := vm_get_closed s.pgm _ _ n hvc hget
          have hsz2 : (s.pgm.setData n ((s.pgm.data n).add_mem_load e.cycles
              e.memory_address)).size = s.pgm.size := setData_size ..
          refine ⟨⟨?_, ?_, ?_⟩, ?_, ?_⟩
          · apply edges_closed_attach
            · intro r hr
              rw [hsz2]
              exact hrc.1 e.cd r hr
            · intro i hi
              injection hi with hi1
              rw [hsz2]
              omega
            · exact edges_closed_setData s.pgm _ _ hec
          · apply regset_closed_set
            · intro w hw
              injection hw with hw1
              rw [set_reg_size, hsz2]
              omega
            · exact regset_closed_mono s.pgm _ _
                (by rw [set_reg_size, hsz2]) hrc
          · exact vmap_closed_mono s.pgm _ _
              (by rw [set_reg_size, hsz2]) hvc
          · exact root_in_inv_set_reg _ _ _ _
              (root_in_inv_of_eqs s.pgm _ rfl
                (setData_origin_eq s.pgm n
                  ((s.pgm.data n).add_mem_load e.cycles e.memory_address)
                  rfl) hri)
          · apply partial_only_of_eqs s.pgm
            · intro v
              rw [set_reg_data]
              exact setData_origin_eq s.pgm n
                ((s.pgm.data n).add_mem_load e.cycles e.memory_address)
                rfl v
            · exact hpo
        | none =>
          rw [scan_clc_new_eq s e hvt hcommit hget]
          have hgr : edges_closed (make_root_node s.pgm e.value e.cycles e.pc
              e.is_kernel).1 := edges_closed_add_vertex s.pgm _ hec
          refine ⟨⟨?_, ?_, ?_⟩, ?_, ?_⟩
          · apply edges_closed_attach
            · intro r hr
              rw [setData_size, make_root_node_size]
              have := hrc.1 e.cd r hr
              omega
            · intro i hi
              injection hi with hi1
              rw [setData_size, make_root_node_size]
              omega
            · exact edges_closed_setData _ _ _ hgr
          · apply regset_closed_set
            · intro w hw
              injection hw with hw1
              rw [set_reg_size, setData_size, make_root_node_size]
              omega
            · exact regset_closed_mono s.pgm _ _
                (by rw [set_reg_size, setData_size, make_root_node_size]
                    omega) hrc
          · apply vmap_closed_store
            · rw [set_reg_size, setData_size, make_root_node_size]
              exact Nat.lt_succ_self s.pgm.size
            · exact vmap_closed_mono s.pgm _ _
                (by rw [set_reg_size, setData_size, make_root_node_size]
                    omega) hvc
          · exact root_in_inv_set_reg _ _ _ _
              (root_in_inv_of_eqs
                (make_root_node s.pgm e.value e.cycles e.pc e.is_kernel).1 _
                rfl
                (setData_origin_eq
                  (make_root_node s.pgm e.value e.cycles e.pc e.is_kernel).1
                  s.pgm.size
                  (((make_root_node s.pgm e.value e.cycles e.pc
                    e.is_kernel).1.data s.pgm.size).add_mem_load e.cycles
                    e.memory_address) rfl)
                (root_in_inv_add_vertex s.pgm _ hec hri))
          · apply partial_only_of_eqs (make_root_node s.pgm e.value e.cycles
              e.pc e.is_kernel).1
            · intro v
              rw [set_reg_data]
              exact setData_origin_eq
                (make_root_node s.pgm e.value e.cycles e.pc e.is_kernel).1
                s.pgm.size
                (((make_root_node s.pgm e.value e.cycles e.pc
                  e.is_kernel).1.data s.pgm.size).add_mem_load e.cycles
                  e.memory_address) rfl v
            · exact partial_only_add_vertex s.pgm _ _ _ (fun h => nomatch h)
                hpo
  | cscOp e =>
    simp only [apply_worker_op] at hok
    injection hok with hok1
    subst hok1
    by_cases hv : e.value.valid = true
    · by_cases hr : has_reg s.pgm s.regset e.cd true = true
      · rw [scan_csc_known_eq s e hv hr]
        have hn : (s.regset.reg_nodes.getD e.cd none).getD 0 < s.pgm.size := by
          unfold has_reg at hr
          cases hp : s.regset.reg_nodes.getD e.cd none with
          | none => rw [hp] at hr; cases hr
          | some m => exact hrc.1 e.cd m hp
        refine ⟨⟨?_, ?_, ?_⟩, ?_, ?_⟩
        · exact edges_closed_setData s.pgm _ _ hec
        · exact regset_closed_mono s.pgm _ _ (by rw [setData_size]) hrc
        · apply vmap_closed_store
          · rw [setData_size]
            exact hn
          · exact vmap_closed_mono s.pgm _ _ (by rw [setData_size]) hvc
        · exact root_in_inv_of_eqs s.pgm _ rfl
            (setData_origin_eq s.pgm
              ((s.regset.reg_nodes.getD e.cd none).getD 0)
              ((s.pgm.data ((s.regset.reg_nodes.getD e.cd none).getD 0)
                ).add_mem_store e.cycles e.memory_address) rfl) hri
        · exact partial_only_of_eqs s.pgm _ _ _
            (setData_origin_eq s.pgm
              ((s.regset.reg_nodes.getD e.cd none).getD 0)
              ((s.pgm.data ((s.regset.reg_nodes.getD e.cd none).getD 0)
                ).add_mem_store e.cycles e.memory_address) rfl) hpo
      · have hrf : has_reg s.pgm s.regset e.cd true = false := by
          cases hh : has_reg s.pgm s.regset e.cd true
          · rfl
          · exact absurd hh hr
        rw [scan_csc_unknown_eq s e hv hrf]
        refine ⟨⟨?_, ?_, ?_⟩, ?_, ?_⟩
        · apply edges_closed_setData
          apply edges_closed_attach
          · intro r hrr
            rw [make_root_node_size]
            have := hrc.1 e.cd r hrr
            omega
          · intro i hi
            injection hi with hi1
            rw [make_root_node_size]
            omega
          · exact edges_closed_add_vertex s.pgm _ hec
        · apply regset_closed_mono (set_reg (make_root_node s.pgm e.value
            e.cycles e.pc e.is_kernel).1 s.regset e.cd (some s.pgm.size)).1
          · rw [setData_size]
          · apply regset_closed_set
            · intro w hw
              injection hw with hw1
              rw [set_reg_size, make_root_node_size]
              omega
            · exact regset_closed_mono s.pgm _ _
                (by rw [set_reg_size, make_root_node_size]; omega) hrc
        · apply vmap_closed_store
          · rw [setData_size, set_reg_size, make_root_node_size]
            exact Nat.lt_succ_self s.pgm.size
          · exact vmap_closed_mono s.pgm _ _
              (by rw [setData_size, set_reg_size, make_root_node_size]
                  omega) hvc
        · exact root_in_inv_of_eqs (set_reg (make_root_node s.pgm e.value
            e.cycles e.pc e.is_kernel).1 s.regset e.cd (some s.pgm.size)).1 _
            rfl
            (setData_origin_eq
              (set_reg (make_root_node s.pgm e.value e.cycles e.pc
                e.is_kernel).1 s.regset e.cd (some s.pgm.size)).1
              s.pgm.size
              (((set_reg (make_root_node s.pgm e.value e.cycles e.pc
                e.is_kernel).1 s.regset e.cd (some s.pgm.size)).1.data
                s.pgm.size).add_mem_store e.cycles e.memory_address) rfl)
            (root_in_inv_set_reg _ _ _ _
              (root_in_inv_add_vertex s.pgm _ hec hri))
        · apply partial_only_of_eqs (set_reg (make_root_node s.pgm e.value
            e.cycles e.pc e.is_kernel).1 s.regset e.cd (some s.pgm.size)).1
          · exact setData_origin_eq
              (set_reg (make_root_node s.pgm e.value e.cycles e.pc
                e.is_kernel).1 s.regset e.cd (some s.pgm.size)).1
              s.pgm.size
              (((set_reg (make_root_node s.pgm e.value e.cycles e.pc
                e.is_kernel).1 s.regset e.cd (some s.pgm.size)).1.data
                s.pgm.size).add_mem_store e.cycles e.memory_address) rfl
          · apply partial_only_of_eqs (make_root_node s.pgm e.value e.cycles
              e.pc e.is_kernel).1
            · intro v
              rw [set_reg_data]
            · exact partial_only_add_vertex s.pgm _ _ _ (fun h => nomatch h)
                hpo
    · have hvf : e.value.valid = false := by
        cases hvv : e.value.valid
        · rfl
        · exact absurd hvv hv
      have : scan_csc s e = s := by
        unfold scan_csc
        rw [if_neg (by simp [hvf])]
      rw [this]
      exact ⟨⟨hec, hrc, hvc⟩, hri, hpo⟩

/-- getD lookup in the _do_parse initial register file. -/
theorem init_reg_nodes_getD (i : Nat) :
    worker_initial_regset.reg_nodes.getD i none =
      if i < 32 then some i else none := by
  show ((List.range 32).map some).getD i none = _
  rw [List.getD_eq_getElem?_getD, List.getElem?_map]
  by_cases h : i < 32
  · rw [List.getElem?_range h, if_pos h]
    rfl
  · rw [if_neg h, List.getElem?_eq_none]
    · rfl
    · simp only [List.length_range]
      omega

/-- The full worker invariant holds of the placeholder state _do_parse
sets up. -/
theorem worker_init_inv : worker_inv_full worker_init_state := by
  have hsz : worker_initial_graph.size = 33 := by
    simp [worker_initial_graph, PGraph.size]
  refine ⟨⟨?_, ⟨?_, ?_⟩, ?_⟩, ?_, ?_⟩
  · intro e he
    cases he
  · intro i v hi
    have hi' : worker_initial_regset.reg_nodes.getD i none = some v := hi
    rw [init_reg_nodes_getD] at hi'
    show v < worker_initial_graph.size
    rw [hsz]
    split at hi'
    · rename_i hlt
      injection hi' with h
      omega
    · cases hi'
  · intro v hp
    have hp' : (some 32 : Option Nat) = some v := hp
    injection hp' with h
    show v < worker_initial_graph.size
    rw [hsz]
    omega
  · intro p hp
    cases hp
  · intro v _
    left
    rfl
  · intro v hv
    by_cases h33 : v < 33
    · by_cases h32 : v < 32
      · left
        exact List.mem_range.mpr h32
      · right
        omega
    · exfalso
      have hd : worker_init_state.pgm.data v = NodeData.null := by
        apply data_of_ge
        show worker_initial_graph.size ≤ v
        rw [hsz]
        omega
      rw [hd] at hv
      exact absurd hv (by decide)

/-- The worker invariant is preserved along any successful sequence of
worker primitives. -/
theorem apply_worker_ops_preserves (ops : List WorkerOp) :
    ∀ s s' : ParserState, apply_worker_ops s ops = Except.ok s' →
      worker_inv_full s → worker_inv_full s' := by
  induction ops with
  | nil =>
    intro s s' hok h
    injection hok with h1
    rw [← h1]
    exact h
  | cons op rest ih =>
    intro s s' hok h
    unfold apply_worker_ops at hok
    cases h1 : apply_worker_op s op with
    | error e =>
      rw [h1] at hok
      cases hok
    | ok s1 =>
      rw [h1] at hok
      exact ih s1 s' hok (apply_worker_op_preserves s op s1 h1 h)

/-- _merge_prev_children raises SubgraphMergeError when the ROOT child at
the head of its worklist has in-degree different from 1. -/
theorem merge_prev_children_root_error (u v : Nat) (sub merged : PGraph)
    (ovm : List Bool) (w : Nat) (rest : List Nat)
    (hroot : (sub.data w).origin = CheriNodeOrigin.ROOT)
    (hdeg : (sub.in_neighbours w).length ≠ 1) :
    merge_prev_children u v sub merged ovm (w :: rest) =
      Except.error BuilderError.subgraphMerge := by
  simp only [merge_prev_children]
  rw [if_pos hroot, if_pos hdeg]

theorem no_partial_empty : no_partial PGraph.empty := by
  intro v h
  rw [data_of_ge PGraph.empty v (Nat.zero_le v)] at h
  exact absurd h (by decide)

theorem no_partial_add_vertex (g : PGraph) (d : NodeData)
    (hd : d.origin ≠ CheriNodeOrigin.PARTIAL) (h : no_partial g) :
    no_partial (g.add_vertex d).1 := by
  intro v
  by_cases hlt : v < g.size
  · rw [data_add_vertex_lt g d v hlt]
    exact h v
  · by_cases heq : v = g.size
    · subst heq
      rw [data_add_vertex_self]
      exact hd
    · rw [data_of_ge]
      · exact (by decide : NodeData.null.origin ≠ CheriNodeOrigin.PARTIAL)
      · rw [add_vertex_size]
        omega

theorem no_partial_of_origin_eqs (g g' : PGraph)
    (horig : ∀ v, (g'.data v).origin = (g.data v).origin)
    (h : no_partial g) : no_partial g' := by
  intro v hv
  exact h v (by rw [← horig v]; exact hv)

/-- The _merge_trace_beginning root loop only concatenates events: the
origin of the accumulated data is unchanged. -/
theorem merge_roots_loop_origin (sub : PGraph) (d d' : NodeData)
    (l : List Nat) (h : merge_roots_loop sub d l = Except.ok d') :
    d'.origin = d.origin := by
  induction l generalizing d with
  | nil =>
    injection h with h1
    rw [← h1]
  | cons v rest ih =>
    simp only [merge_roots_loop] at h
    split at h
    · have := ih _ h
      rw [this]
      rfl
    · cases h

/-- _merge_prev_children never changes a vertex origin, in the subgraph or
in the merged graph. -/
theorem merge_prev_children_origins (u v : Nat) :
    ∀ (l : List Nat) (sub merged : PGraph) (ovm : List Bool)
      (sub' merged' : PGraph) (ovm' : List Bool),
      merge_prev_children u v sub merged ovm l =
        Except.ok (sub', merged', ovm') →
      (∀ x, (sub'.data x).origin = (sub.data x).origin) ∧
      (∀ x, (merged'.data x).origin = (merged.data x).origin) := by
  intro l
  induction l with
  | nil =>
    intro sub merged ovm sub' merged' ovm' h
    injection h with h1
    have h2 : sub = sub' := congrArg Prod.fst h1
    have h3 : merged = merged' := congrArg (fun p => p.2.1) h1
    rw [← h2, ← h3]
    exact ⟨fun x => rfl, fun x => rfl⟩
  | cons w rest ih =>
    intro sub merged ovm sub' merged' ovm' h
    simp only [merge_prev_children] at h
    split at h
    · split at h
      · cases h
      · split at h
        · obtain ⟨hs, hm⟩ := ih _ _ _ _ _ _ h
          constructor
          · intro x
            rw [hs x]
            rfl
          · intro x
            rw [hm x]
            exact setData_origin_eq merged v
              (merge_partial_vertex_data (sub.data w) (merged.data v)) rfl x
        · obtain ⟨hs, hm⟩ := ih _ _ _ _ _ _ h
          constructor
          · exact hs
          · intro x
            rw [hm x]
            exact setData_origin_eq merged v
              (merge_partial_vertex_data (sub.data w) (merged.data v)) rfl x
    · exact ih _ _ _ _ _ _ h

/-- _merge_trace_beginning adds at most one coalesced ROOT vertex: it
keeps the merged graph PARTIAL-free and leaves the subgraph alone. -/
theorem merge_trace_beginning_no_partial (st st' : MergeStepState) (u : Nat)
    (h : merge_trace_beginning st u = Except.ok st')
    (hnp : no_partial st.merged) :
    no_partial st'.merged ∧ st'.sub = st.sub := by
  simp only [merge_trace_beginning] at h
  cases hroots : (st.sub.out_neighbours u).filter
      (fun w => (st.sub.data w).origin == CheriNodeOrigin.ROOT) with
  | nil =>
    simp only [hroots] at h
    split at h
    · injection h with h1
      rw [← h1]
      exact ⟨hnp, rfl⟩
    · cases h
  | cons r0 rest =>
    simp only [hroots] at h
    cases hloop : merge_roots_loop st.sub (st.sub.data r0) rest with
    | error e =>
      simp only [hloop] at h
      cases h
    | ok root_data =>
      simp only [hloop] at h
      have hmem : r0 ∈ (st.sub.out_neighbours u).filter
          (fun w => (st.sub.data w).origin == CheriNodeOrigin.ROOT) := by
        rw [hroots]
        exact List.mem_cons_self r0 rest
      have hr0 : (st.sub.data r0).origin = CheriNodeOrigin.ROOT := by
        simpa using List.of_mem_filter hmem
      have horig : root_data.origin = CheriNodeOrigin.ROOT := by
        rw [merge_roots_loop_origin st.sub _ _ _ hloop, hr0]
      have hmerged : no_partial (st.merged.add_vertex root_data).1 :=
        no_partial_add_vertex st.merged root_data
          (by rw [horig]; decide) hnp
      split at h
      · injection h with h1
        rw [← h1]
        exact ⟨hmerged, rfl⟩
      · injection h with h1
        rw [← h1]
        exact ⟨hmerged, rfl⟩

/-- _merge_initial_vertex_to_none never changes the state when it
succeeds. -/
theorem merge_initial_vertex_to_none_eq (st st' : MergeStepState) (u : Nat)
    (h : merge_initial_vertex_to_none st u = Except.ok st') : st' = st := by
  simp only [merge_initial_vertex_to_none] at h
  split at h
  · cases h
  · split at h
    · cases h
    · injection h with h1
      exact h1.symm

/-- _merge_initial_vertex_to_prev folds events into existing vertices: no
origin changes on either graph. -/
theorem merge_initial_vertex_to_prev_no_partial (st st' : MergeStepState)
    (u v : Nat) (h : merge_initial_vertex_to_prev st u v = Except.ok st')
    (hnp : no_partial st.merged) :
    no_partial st'.merged ∧
    ∀ x, (st'.sub.data x).origin = (st.sub.data x).origin := by
  simp only [merge_initial_vertex_to_prev] at h
  split at h
  · cases h
  · rename_i sub2 merged2 ovm2 hmc
    injection h with h1
    obtain ⟨hs, hm⟩ := merge_prev_children_origins u v _ _ _ _ _ _ _ hmc
    constructor
    · apply no_partial_of_origin_eqs st.merged
      · intro x
        rw [← h1]
        show (merged2.data x).origin = (st.merged.data x).origin
        rw [hm x]
        exact setData_origin_eq st.merged v
          (merge_partial_vertex_data (st.sub.data u) (st.merged.data v))
          rfl x
      · exact hnp
    · intro x
      rw [← h1]
      show (sub2.data x).origin = (st.sub.data x).origin
      exact hs x

/-- _merge_subgraph_vertex copies a subgraph vertex: the merged graph
stays PARTIAL-free when that vertex is not PARTIAL, and the subgraph is
untouched. -/
theorem merge_subgraph_vertex_no_partial (st : MergeStepState) (u : Nat)
    (hu : (st.sub.data u).origin ≠ CheriNodeOrigin.PARTIAL)
    (hnp : no_partial st.merged) :
    no_partial (merge_subgraph_vertex st u).merged ∧
    (merge_subgraph_vertex st u).sub = st.sub := by
  constructor
  · intro x
    exact no_partial_add_vertex st.merged (st.sub.data u) hu hnp x
  · rfl

/-- _merge_initial_mem_vertex either copies the (non-PARTIAL) vertex or
folds its events into a previous vertex. -/
theorem merge_initial_mem_vertex_no_partial (inp : StepInputs)
    (st st' : MergeStepState) (u : Nat)
    (hu : (st.sub.data u).origin ≠ CheriNodeOrigin.PARTIAL)
    (h : merge_initial_mem_vertex inp st u = Except.ok st')
    (hnp : no_partial st.merged) :
    no_partial st'.merged ∧ st'.sub = st.sub := by
  simp only [merge_initial_mem_vertex] at h
  split at h
  · injection h with h1
    rw [← h1]
    exact merge_subgraph_vertex_no_partial st u hu hnp
  · split at h
    · cases h
    · injection h with h1
      rw [← h1]
      constructor
      · apply no_partial_of_origin_eqs st.merged
        · intro x
          exact setData_origin_eq st.merged _
            (merge_partial_vertex_data (st.sub.data u) (st.merged.data _))
            rfl x
        · exact hnp
      · rfl

/-- _merge_pcc_fixup only rewrites the previous register snapshot. -/
theorem merge_pcc_fixup_components (inp : StepInputs)
    (st st' : MergeStepState) (u : Nat)
    (h : merge_pcc_fixup inp st u = Except.ok st') :
    st'.merged = st.merged ∧ st'.sub = st.sub := by
  simp only [merge_pcc_fixup] at h
  split at h
  · injection h with h1
    rw [← h1]
    exact ⟨rfl, rfl⟩
  · split at h
    · split at h
      · split at h
        · injection h with h1
          rw [← h1]
          exact ⟨rfl, rfl⟩
        · cases h
      · cases h
    · injection h with h1
      rw [← h1]
      exact ⟨rfl, rfl⟩
  · cases h

/-- _merge_syscall only appends a syscall-return event: no origin
changes. -/
theorem merge_syscall_components (inp : StepInputs) (st : MergeStepState)
    (u : Nat) :
    (merge_syscall inp st u).merged = st.merged ∧
    ∀ x, ((merge_syscall inp st u).sub.data x).origin =
      (st.sub.data x).origin := by
  cases hps : inp.prev_syscall with
  | none => simp [merge_syscall, hps]
  | some ps =>
    simp only [merge_syscall, hps]
    by_cases hact : ps.active = false
    · rw [if_pos hact]
      exact ⟨rfl, fun x => rfl⟩
    · rw [if_neg hact]
      by_cases heret : ps.pc_eret = inp.curr_eret_addr
      · rw [if_pos heret]
        refine ⟨rfl, fun x => ?_⟩
        exact setData_origin_eq st.sub u ((st.sub.data u).add_use_syscall
          (inp.curr_eret_time.getD 0) (ps.code.getD 0) false) rfl x
      · rw [if_neg heret]
        exact ⟨rfl, fun x => rfl⟩

/-- _merge_initial_vertex keeps the merged graph PARTIAL-free and does not
change subgraph origins. -/
theorem merge_initial_vertex_no_partial (inp : StepInputs)
    (st st' : MergeStepState) (u : Nat)
    (h : merge_initial_vertex inp st u = Except.ok st')
    (hnp : no_partial st.merged) :
    no_partial st'.merged ∧
    ∀ x, (st'.sub.data x).origin = (st.sub.data x).origin := by
  simp only [merge_initial_vertex] at h
  split at h
  · obtain ⟨h1, h2⟩ := merge_trace_beginning_no_partial st st' u h hnp
    exact ⟨h1, fun x => by rw [h2]⟩
  · split at h
    · have := merge_initial_vertex_to_none_eq st st' u h
      rw [this]
      exact ⟨hnp, fun x => rfl⟩
    · split at h
      · have := merge_initial_vertex_to_none_eq st st' u h
        rw [this]
        exact ⟨hnp, fun x => rfl⟩
      · exact merge_initial_vertex_to_prev_no_partial st st' u _ h hnp

/-- examine_vertex keeps the merged graph PARTIAL-free and keeps PARTIAL
subgraph vertices confined to the initial placeholders. -/
theorem examine_vertex_no_partial (inp : StepInputs)
    (st st' : MergeStepState) (u : Nat)
    (h : examine_vertex inp st u = Except.ok st')
    (hnp : no_partial st.merged)
    (hpo : partial_only_initial st.sub inp.initial_reg_nodes
      inp.initial_pcc) :
    no_partial st'.merged ∧
    partial_only_initial st'.sub inp.initial_reg_nodes inp.initial_pcc := by
  simp only [examine_vertex] at h
  split at h
  · injection h with h1
    rw [← h1]
    exact ⟨hnp, hpo⟩
  · split at h
    · split at h
      · obtain ⟨h1, h2⟩ := merge_initial_vertex_no_partial inp st st' u h hnp
        exact ⟨h1, partial_only_of_eqs st.sub st'.sub _ _ h2 hpo⟩
      · rename_i hnotinit
        injection h with h1
        rw [← h1]
        have hu : (st.sub.data u).origin ≠ CheriNodeOrigin.PARTIAL :=
          fun hP => hnotinit (hpo u hP)
        obtain ⟨g1, g2⟩ := merge_subgraph_vertex_no_partial st u hu hnp
        refine ⟨g1, ?_⟩
        rw [g2]
        exact hpo
    · split at h
      · cases h
      · rename_i st1 hfix
        have hcomp : st1.merged = st.merged ∧ st1.sub = st.sub := by
          by_cases hfe : inp.fixup_epcc = some u
          · rw [if_pos hfe] at hfix
            exact merge_pcc_fixup_components inp st st1 u hfix
          · rw [if_neg hfe] at hfix
            injection hfix with h2
            rw [← h2]
            exact ⟨rfl, rfl⟩
        obtain ⟨hm1, hs1⟩ := hcomp
        have hst2 : (if inp.syscall_eret_cap = some u then
              merge_syscall inp st1 u else st1).merged = st.merged ∧
            ∀ x, ((if inp.syscall_eret_cap = some u then
              merge_syscall inp st1 u else st1).sub.data x).origin =
              (st.sub.data x).origin := by
          by_cases hsc : inp.syscall_eret_cap = some u
          · rw [if_pos hsc]
            obtain ⟨a, b⟩ := merge_syscall_components inp st1 u
            constructor
            · rw [a, hm1]
            · intro x
              rw [b x, hs1]
          · rw [if_neg hsc]
            constructor
            · rw [hm1]
            · intro x
              rw [hs1]
        have hnp2 : no_partial (if inp.syscall_eret_cap = some u then
            merge_syscall inp st1 u else st1).merged := by
          rw [hst2.1]
          exact hnp
        have hpo2 : partial_only_initial (if inp.syscall_eret_cap = some u
            then merge_syscall inp st1 u else st1).sub
            inp.initial_reg_nodes inp.initial_pcc :=
          partial_only_of_eqs st.sub _ _ _ hst2.2 hpo
        split at h
        · obtain ⟨a, b⟩ := merge_initial_vertex_no_partial inp _ st' u h hnp2
          refine ⟨a, partial_only_of_eqs st.sub st'.sub _ _ ?_ hpo⟩
          intro x
          rw [b x]
          exact hst2.2 x
        · split at h
          · rename_i hnotinit hmem
            have hu := fun hP => hnotinit (hpo2 u hP)
            obtain ⟨a, b⟩ :=
              merge_initial_mem_vertex_no_partial inp _ st' u hu h hnp2
            refine ⟨a, ?_⟩
            rw [b]
            exact hpo2
          · rename_i hnotinit hnotmem
            injection h with h1
            rw [← h1]
            have hu := fun hP => hnotinit (hpo2 u hP)
            obtain ⟨a, b⟩ := merge_subgraph_vertex_no_partial _ u hu hnp2
            refine ⟨a, ?_⟩
            rw [b]
            exact hpo2

/-- The BFS transform keeps the merged graph PARTIAL-free. -/
theorem merge_step_run_no_partial (inp : StepInputs) :
    ∀ (order : List Nat) (st st' : MergeStepState),
      merge_step_run inp st order = Except.ok st' →
      no_partial st.merged →
      partial_only_initial st.sub inp.initial_reg_nodes inp.initial_pcc →
      no_partial st'.merged := by
  intro order
  induction order with
  | nil =>
    intro st st' h hnp hpo
    injection h with h1
    rw [← h1]
    exact hnp
  | cons u rest ih =>
    intro st st' h hnp hpo
    unfold merge_step_run at h
    cases hex : examine_vertex inp st u with
    | error e =>
      rw [hex] at h
      cases h
    | ok st1 =>
      rw [hex] at h
      obtain ⟨h1, h2⟩ := examine_vertex_no_partial inp st st1 u hex hnp hpo
      exact ih st1 st' h h1 h2

/-- One merge-context step keeps the merged graph PARTIAL-free, given that
the worker's PARTIAL vertices are confined to its initial placeholders. -/
theorem merge_ctx_step_no_partial (ctx : MergeCtx) (w : WorkerResult)
    (ctx' : MergeCtx) (h : merge_ctx_step ctx w = Except.ok ctx')
    (hnp : no_partial ctx.merged)
    (hpo : partial_only_initial w.sub w.initial_reg_nodes w.initial_pcc) :
    no_partial ctx'.merged := by
  simp only [merge_ctx_step] at h
  split at h
  · cases h
  · rename_i st hrun
    have hst : no_partial st.merged :=
      merge_step_run_no_partial _ w.order _ st hrun hnp hpo
    split at h
    · cases h
    · cases h
    · injection h with h1
      rw [← h1]
      exact hst

/-- Merging any list of worker bundles keeps the merged graph
PARTIAL-free. -/
theorem mp_merge_no_partial :
    ∀ (ws : List WorkerResult) (ctx ctx' : MergeCtx),
      mp_merge ctx ws = Except.ok ctx' → no_partial ctx.merged →
      (∀ w ∈ ws, partial_only_initial w.sub w.initial_reg_nodes
        w.initial_pcc) →
      no_partial ctx'.merged := by
  intro ws
  induction ws with
  | nil =>
    intro ctx ctx' h hnp _
    injection h with h1
    rw [← h1]
    exact hnp
  | cons w rest ih =>
    intro ctx ctx' h hnp hws
    unfold mp_merge at h
    cases hstep : merge_ctx_step ctx w with
    | error e =>
      rw [hstep] at h
      cases h
    | ok ctx1 =>
      rw [hstep] at h
      have h1 : no_partial ctx1.merged :=
        merge_ctx_step_no_partial ctx w ctx1 hstep hnp
          (hws w (List.mem_cons_self w rest))
      exact ih ctx1 ctx' h h1
        (fun x hx => hws x (List.mem_cons_of_mem w hx))

/-- Capability wider than capRW's bounds, reported by a hostile or corrupt
trace record. -/
def capWide : CheriCap :=
  { base := 0x1000, length := 0x2000, offset := 0, permissions := 3,
    objtype := 0, valid := true, t_alloc := 0 }

/-- Derived-vertex data carrying the wide capability. -/
def wideData : NodeData :=
  { cap := capWide, origin := CheriNodeOrigin.SETBOUNDS, pc := 0x44,
    is_kernel := false, events := [] }

/-- Parser state for the C1 counterexample: one ROOT vertex (capRW) held
by register 1. -/
def sC1 : ParserState :=
  { pgm := { vdata := [rootData capRW], edges := [] },
    regset :=
      { reg_nodes := (List.replicate 32 (none : Option Nat)).set 1 (some 0),
        pcc := none },
    vertex_map := { vertex_map := [] } }

/-- State after the widening csetbounds of the C1 counterexample. -/
def sC1' : ParserState :=
  { pgm := { vdata := [rootData capRW, wideData], edges := [(0, 1)] },
    regset :=
      { reg_nodes := ((List.replicate 32 (none : Option Nat)).set 1
          (some 0)).set 2 (some 1),
        pcc := none },
    vertex_map := { vertex_map := [] } }

/-- C1 counterexample: a csetbounds record whose reported destination
capability is wider than the parent's is accepted by the builder without
any check, producing an edge (0, 1) between two non-PARTIAL vertices that
violates containment. -/
theorem edge_containment_counterexample :
    derive_scan sC1 1 2 capWide 0x44 false CheriNodeOrigin.SETBOUNDS =
      Except.ok sC1' ∧
    (0, 1) ∈ sC1'.pgm.edges ∧
    (sC1'.pgm.data 0).origin ≠ CheriNodeOrigin.PARTIAL ∧
    ¬ cap_contained (sC1'.pgm.data 1).cap (sC1'.pgm.data 0).cap :=
  ⟨rfl, by decide, by decide, by decide⟩

/-- Capability properly narrowed from capRW. -/
def capNarrow : CheriCap :=
  { base := 0x1000, length := 0x800, offset := 0, permissions := 1,
    objtype := 0, valid := true, t_alloc := 0 }

/-- Derived-vertex data carrying the narrowed capability. -/
def narrowData : NodeData :=
  { cap := capNarrow, origin := CheriNodeOrigin.SETBOUNDS, pc := 0x44,
    is_kernel := false, events := [] }

/-- Graph after a narrowing csetbounds from the C1 witness state. -/
def gN' : PGraph :=
  { vdata := [rootData capRW, narrowData], edges := [(0, 1)] }

/-- C1 witness: the make_node conjunct of the preservation theorem
evaluated on a narrowing derivation. -/
theorem edge_containment_preservation_witness :
    edges_closed sC1.pgm ∧ edges_contained sC1.pgm ∧
    make_node sC1.pgm sC1.regset 1 narrowData = Except.ok (gN', 1) ∧
    (edges_contained gN' ∧ edges_closed gN') :=
  ⟨by decide, by decide, rfl,
    edge_containment_preservation.1 sC1.pgm sC1.regset 1 narrowData gN' 1
      (by decide) (by decide)
      (by
        intro p hp
        rw [show sC1.regset.reg_nodes.getD 1 none = some 0 from rfl] at hp
        cases hp
        decide)
      (by
        intro p hp
        rw [show sC1.regset.reg_nodes.getD 1 none = some 0 from rfl] at hp
        cases hp
        intro _
        decide)
      rfl⟩

/-- C5 witness: a placeholder with a non-ROOT child and no ROOT child
fails with MissingParent. -/
theorem merge_trace_beginning_spec_witness :
    ([] : List Nat) = (stC5.sub.out_neighbours 0).filter
      (fun w => (stC5.sub.data w).origin == CheriNodeOrigin.ROOT) ∧
    ([1] : List Nat) = (stC5.sub.out_neighbours 0).filter
      (fun w => (stC5.sub.data w).origin != CheriNodeOrigin.ROOT) ∧
    merge_trace_beginning stC5 0 = Except.error BuilderError.missingParent :=
  ⟨by decide, by decide,
    (merge_trace_beginning_spec stC5 0 [] [1] (by decide) (by decide)).1
      rfl (by decide)⟩

/-- C10: in every worker state reached from the _do_parse placeholder
setup by a successful run of the worker's graph and register-file
primitives, a vertex of origin ROOT has either no in-neighbour at all or
exactly one, and that one has origin PARTIAL (register and pcc
assignments attach a ROOT to the placeholder held in the slot only
through _attach_subgraph_merge, which adds the edge only when the ROOT
has no in-neighbours yet); and when _merge_initial_vertex_to_prev
processes, under a placeholder matched to a previous-window vertex, a
ROOT child whose in-degree differs from 1, the merge fails with a
SubgraphMerge error. -/
theorem root_attach_invariant (ops : List WorkerOp) (s' : ParserState)
    (st : MergeStepState) (u v w : Nat) (rest : List Nat)
    (hok : apply_worker_ops worker_init_state ops = Except.ok s')
    (hw : st.sub.out_neighbours u = w :: rest)
    (hroot : (st.sub.data w).origin = CheriNodeOrigin.ROOT)
    (hdeg : (st.sub.in_neighbours w).length ≠ 1) :
    root_in_inv s'.pgm ∧
    merge_initial_vertex_to_prev st u v =
      Except.error BuilderError.subgraphMerge := by
  constructor
  · exact (apply_worker_ops_preserves ops worker_init_state s' hok
      worker_init_inv).2.1
  · simp only [merge_initial_vertex_to_prev]
    rw [hw, merge_prev_children_root_error u v st.sub _ _ w rest hroot hdeg]

/-- Subgraph for the C10 witness: placeholder 0 with the ROOT child 1,
which also has the second parent 2. -/
def subC10 : PGraph :=
  { vdata := [partial_node_data, rootData capRW, rootData capRW],
    edges := [(0, 1), (2, 1)] }

/-- Merge step state for the C10 witness. -/
def stC10 : MergeStepState :=
  { sub := subC10, merged := worker_initial_graph, cvm := [],
    ovm := [], prev_reg_nodes := [], prev_pcc := none, prev_vmap := [] }

/-- C2: for every sequence of worker result bundles merged in trace order
from the empty context, no vertex of the final merged graph has origin
PARTIAL, provided each worker's PARTIAL vertices are confined to its
initial placeholders; and every worker run from the _do_parse placeholder
setup does confine its PARTIAL vertices to the 32 register placeholders
and the pcc placeholder, so the placeholders exist only inside the
worker's subgraph and are never copied into the merged graph. -/
theorem merged_graph_no_partial (ws : List WorkerResult) (ctx' : MergeCtx)
    (hsub : ∀ w ∈ ws, partial_only_initial w.sub w.initial_reg_nodes
      w.initial_pcc)
    (hok : mp_merge MergeCtx.init ws = Except.ok ctx') :
    no_partial ctx'.merged ∧
    ∀ (ops : List WorkerOp) (s' : ParserState),
      apply_worker_ops worker_init_state ops = Except.ok s' →
      partial_only_initial s'.pgm (List.range 32) 32 := by
  constructor
  · exact mp_merge_no_partial ws MergeCtx.init ctx' hok no_partial_empty hsub
  · intro ops s' hops
    exact (apply_worker_ops_preserves ops worker_init_state s' hops
      worker_init_inv).2.2

/-- Worker subgraph for the C2 witness: register placeholder 0, pcc
placeholder 1, and the ROOT child 2 of the register placeholder. -/
def subC2 : PGraph :=
  { vdata := [partial_node_data, partial_node_data, rootData capRW],
    edges := [(0, 2)] }

/-- Empty pcc-fixup bundle for the C2 witness. -/
def pfC2 : PccFixupInfo :=
  { saved_addr := none, saved_pcc := none, epcc_out_neighbours := none,
    epcc := none, badvaddr := none }

/-- Inactive syscall bundle for the C2 witness. -/
def scC2 : SyscallMergeInfo :=
  { code := none, active := false, pc_eret := none, eret_time := none,
    eret_cap := none, eret_addr := none }

/-- Worker result bundle for the C2 witness. -/
def wC2 : WorkerResult :=
  { sub := subC2, initial_reg_nodes := [0], initial_pcc := 1,
    final_reg_nodes := [some 2], final_pcc := none, vmap := [],
    initial_map := [], pcc_fixup := pfC2, syscall := scC2,
    order := [0, 1, 2] }

/-- The context the C2 witness merge produces. -/
def ctxC2 : MergeCtx :=
  (mp_merge MergeCtx.init [wC2]).toOption.getD MergeCtx.init

theorem c2_sub_partial_only : partial_only_initial subC2 [0] 1 := by
  intro v hv
  match v with
  | 0 => exact Or.inl (List.mem_cons_self 0 [])
  | 1 => exact Or.inr rfl
  | 2 => exact absurd hv (by decide)
  | (n+3) =>
    exfalso
    rw [data_of_ge] at hv
    · exact absurd hv (by decide)
    · show subC2.size ≤ n + 3
      have h3 : subC2.size = 3 := rfl
      omega

/-- C2 witness: a one-worker merge whose subgraph holds two placeholders
and a ROOT child yields a PARTIAL-free merged graph, and the placeholder
state itself confines PARTIAL to the placeholders. -/
theorem merged_graph_no_partial_witness :
    no_partial ctxC2.merged ∧
    partial_only_initial worker_init_state.pgm (List.range 32) 32 := by
  have h := merged_graph_no_partial [wC2] ctxC2
    (by
      intro w hw
      have hw1 : w = wC2 := by
        cases hw with
        | head => rfl
        | tail _ hmem => cases hmem
      rw [hw1]
      exact c2_sub_partial_only)
    rfl
  exact ⟨h.1, h.2 [] worker_init_state rfl⟩

/-- C10 witness: the empty run keeps the initial state's ROOT invariant,
and a ROOT child of in-degree 2 makes the previous-window merge fail. -/
theorem root_attach_invariant_witness :
    root_in_inv worker_init_state.pgm ∧
    merge_initial_vertex_to_prev stC10 0 0 =
      Except.error BuilderError.subgraphMerge :=
  root_attach_invariant [] worker_init_state stC10 0 0 1 []
    rfl (by decide) (by decide) (by decide)

end Cheriplot
